import Mathlib

/-!
Verification of the command dispatch and lifecycle subsystem of the
coffee_redis repository (src/app/models/command.py together with the
Redis-primitive helpers in src/app/utils/redis_utils.py).

The embedding models the per-device Redis state touched by the command
subsystem:

* the per-command hash `cm:dev:{device_id}:cmd:{command_id}` is a `CmdHash`
  stored in an association list keyed by command id.  Every writer of this
  hash (`RemoteCommand.save`, the claim Lua script, `update_status`) stores
  string-encoded fields; integer-valued fields are modelled by their parsed
  value (`Option Int`, `none` standing for the empty string `''`), which is
  faithful because every write goes through Python's `str(int)` and every
  read goes through `int(str)`, a bijection on the values that actually
  occur.  JSON dict fields (`payload_json`, `result_payload_json`) are kept
  as opaque `Option String` compact-dump texts: `json.dumps` after
  `json.loads` is the identity on the compact dumps the code itself stores.
* the pending queue `cm:dev:{device_id}:q:cmd:pending` is a Redis list,
  modelled head-first: `LPUSH` is `List.cons`, `RPUSH` appends, `RPOP`
  removes the last element.
* the inflight sorted set `cm:dev:{device_id}:cmd:inflight` is a list of
  (member, score) pairs kept in (score, member) order, matching the order
  `ZRANGEBYSCORE` returns members in.
* the time index `cm:dev:{device_id}:cmds:by_ts` is a second sorted set.

Python truthiness tests (`if not self.issued_ts`, `if error_message`,
`if result_payload`) are modelled by explicit truthiness functions, and
operations that can raise a `TypeError` in Python (comparing `None` with an
int) return `Option`/`Except`, with the error value carrying the partial
state the raise would leave behind.
-/

/-- Python truthiness of an optional int: `None` and `0` are falsy. -/
def pyTruthyInt : Option Int → Bool
  | none => false
  | some n => n != 0

/-- Python truthiness of a string: only `''` is falsy. -/
def pyTruthyStr (s : String) : Bool := s != ""

/-- Python truthiness of an optional JSON dict (kept as its compact dump):
`None` and the empty dict are falsy. -/
def pyTruthyDict : Option String → Bool
  | none => false
  | some s => s != "\x7b\x7d"

/-- Association-list lookup, first binding wins (models reading one field of
a keyed family of Redis hashes). -/
def alookup {α : Type} : List (String × α) → String → Option α
  | [], _ => none
  | (k', v) :: rest, k => if k' = k then some v else alookup rest k

/-- Association-list overwrite: replace the binding in place if the key is
present, append it otherwise (models a full-mapping `HSET`). -/
def aset {α : Type} : List (String × α) → String → α → List (String × α)
  | [], k, v => [(k, v)]
  | (k', v') :: rest, k, v =>
    if k' = k then (k, v) :: rest else (k', v') :: aset rest k v

/-- Association-list update: apply `f` to the bound value if the key is
present; otherwise bind the key to `f d` (models a partial `HSET` /
`HINCRBY`, which creates the hash when it is absent). -/
def aupdate {α : Type} : List (String × α) → String → (α → α) → α → List (String × α)
  | [], k, f, d => [(k, f d)]
  | (k', v') :: rest, k, f, d =>
    if k' = k then (k, f v') :: rest else (k', v') :: aupdate rest k f d

/-- Sorted-set member removal (`ZREM`). -/
def zrem (z : List (String × Int)) (m : String) : List (String × Int) :=
  z.filter (fun p => p.1 != m)

/-- Insertion into a (score, member)-ordered sorted-set representation. -/
def zinsert (m : String) (s : Int) : List (String × Int) → List (String × Int)
  | [] => [(m, s)]
  | (m', s') :: rest =>
    if s < s' ∨ (s = s' ∧ m < m') then (m, s) :: (m', s') :: rest
    else (m', s') :: zinsert m s rest

/-- `ZADD`: remove any existing entry for the member, then insert it with
the new score at its ordered position. -/
def zadd (z : List (String × Int)) (m : String) (s : Int) : List (String × Int) :=
  zinsert m s (zrem z m)

/-- Score lookup (`ZSCORE`). -/
def zlookup (z : List (String × Int)) (m : String) : Option Int :=
  alookup z m

/-- `ZRANGEBYSCORE key lo hi`: members with score in the inclusive range, in
stored (score, member) order. -/
def zrangebyscore (z : List (String × Int)) (lo hi : Int) : List String :=
  (z.filter (fun p => lo ≤ p.2 ∧ p.2 ≤ hi)).map Prod.fst

/-- `RPOP`: remove and return the last (tail) element of a Redis list. -/
def rpop {α : Type} (l : List α) : Option (α × List α) :=
  match l.reverse with
  | [] => none
  | x :: xs => some (x, xs.reverse)

/-- The stored per-command Redis hash
`cm:dev:{device_id}:cmd:{command_id}`.  Fields mirror the mapping written by
`RemoteCommand.save` (src/app/models/command.py lines 208-225); integer
fields are `Option Int` with `none` for the empty string. -/
structure CmdHash where
  command_type : String
  payload_json : Option String
  status : String
  priority : Option Int
  issued_ts : Option Int
  sent_ts : Option Int
  result_ts : Option Int
  timeout_ts : Option Int
  attempts : Option Int
  max_attempts : Option Int
  timeout_seconds : Option Int
  result_payload_json : Option String
  last_error : String
  batch_id : String
  notes : String
  issued_by : String
deriving Repr, DecidableEq

/-- The hash Redis materialises when a partial `HSET`/`HINCRBY` runs against
a missing key: every field not explicitly written reads back as absent,
which `RemoteCommand.get` treats like the empty string.  (Unreachable
through the repository's own flows, where `save` always writes the full
mapping first.) -/
def emptyHash : CmdHash :=
  { command_type := "", payload_json := none, status := "", priority := none
    issued_ts := none, sent_ts := none, result_ts := none, timeout_ts := none
    attempts := none, max_attempts := none, timeout_seconds := none
    result_payload_json := none, last_error := "", batch_id := "", notes := ""
    issued_by := "" }

/-- The in-memory `RemoteCommand` dataclass (src/app/models/command.py lines
14-43).  Fields that Python deserialization can leave as `None` are
`Option`-typed; a freshly constructed command has `priority = some 0`,
`attempts = some 0`, `max_attempts = some 3`, `timeout_seconds = some 300`. -/
structure Cmd where
  command_id : String
  device_id : String
  command_type : String
  payload : Option String
  status : String
  priority : Option Int
  issued_ts : Option Int
  sent_ts : Option Int
  result_ts : Option Int
  timeout_ts : Option Int
  attempts : Option Int
  max_attempts : Option Int
  timeout_seconds : Option Int
  result_payload : Option String
  last_error : String
  batch_id : Option String
  notes : String
  issued_by : String
deriving Repr, DecidableEq

/-- The per-device slice of the Redis keyspace that the command subsystem
touches.  Device-scoped key namespacing makes distinct devices' states
disjoint, so one `DeviceState` models everything a claim, save, status
update or per-device recovery sweep can read or write. -/
structure DeviceState where
  pending : List String
  inflight : List (String × Int)
  hashes : List (String × CmdHash)
  byTs : List (String × Int)
deriving Repr, DecidableEq

/-- Deserialization of a stored hash into a `RemoteCommand` object,
mirroring the constructor call of `RemoteCommand.get` (lines 54-73).
`batch_id` is read with no default, so a stored empty string deserializes to
`some ''`. -/
def cmdOfHash (device_id command_id : String) (data : CmdHash) : Cmd :=
  { command_id := command_id
    device_id := device_id
    command_type := data.command_type
    payload := data.payload_json
    status := data.status
    priority := data.priority
    issued_ts := data.issued_ts
    sent_ts := data.sent_ts
    result_ts := data.result_ts
    timeout_ts := data.timeout_ts
    attempts := data.attempts
    max_attempts := data.max_attempts
    timeout_seconds := data.timeout_seconds
    result_payload := data.result_payload_json
    last_error := data.last_error
    batch_id := some data.batch_id
    notes := data.notes
    issued_by := data.issued_by }

/-- `RemoteCommand.get` (src/app/models/command.py lines 45-73): read the
command hash and deserialize each field; `none` when the hash is absent. -/
def RemoteCommand.get (device_id command_id : String) (st : DeviceState) : Option Cmd :=
  match alookup st.hashes command_id with
  | none => none
  | some data => some (cmdOfHash device_id command_id data)

/-- Serialization of a command into its stored hash, mirroring the `data`
mapping of `RemoteCommand.save` (lines 208-225).  `batch_id` is stored as
`self.batch_id or ''`. -/
def serializeCmd (c : Cmd) : CmdHash :=
  { command_type := c.command_type
    payload_json := c.payload
    status := c.status
    priority := c.priority
    issued_ts := c.issued_ts
    sent_ts := c.sent_ts
    result_ts := c.result_ts
    timeout_ts := c.timeout_ts
    attempts := c.attempts
    max_attempts := c.max_attempts
    timeout_seconds := c.timeout_seconds
    result_payload_json := c.result_payload
    last_error := c.last_error
    batch_id := c.batch_id.getD ""
    notes := c.notes
    issued_by := c.issued_by }

/-- `RemoteCommand.update_status` (lines 245-273).  Mutates the in-memory
command and writes a partial hash update; a transition to `success` or
`failed` stamps `result_ts` and removes the command from the inflight set.
No precondition on the current status is checked. -/
def RemoteCommand.update_status (c : Cmd) (status : String) (error_message : String)
    (result_payload : Option String) (now : Int) (st : DeviceState) :
    Cmd × DeviceState :=
  let c1 := { c with status := status }
  let term := status = "success" ∨ status = "failed"
  let c2 := if term then { c1 with result_ts := some now } else c1
  let st1 := if term then { st with inflight := zrem st.inflight c.command_id } else st
  let c3 := if pyTruthyStr error_message then { c2 with last_error := error_message } else c2
  let c4 := if pyTruthyDict result_payload then { c3 with result_payload := result_payload } else c3
  let upd := fun (h : CmdHash) =>
    let h1 := { h with status := c4.status, last_error := c4.last_error
                       result_payload_json := c4.result_payload }
    if pyTruthyInt c4.result_ts then { h1 with result_ts := c4.result_ts } else h1
  (c4, { st1 with hashes := aupdate st1.hashes c.command_id upd emptyHash })

/-- One iteration of the claim Lua script's loop body applied to the command
hash: `HSET status 'sent' sent_ts now` followed by `HINCRBY attempts 1`
(lines 118-121).  `HINCRBY` treats an absent field as 0; a non-numeric
stored value would be a Redis error but cannot arise because every write of
`attempts` stores a numeric string. -/
def claimStepHash (now : Int) (h : CmdHash) : CmdHash :=
  { h with status := "sent", sent_ts := some now
           attempts := some (h.attempts.getD 0 + 1) }

/-- The loop of the claim Lua script (lines 107-122): up to `fuel` times,
`RPOP` the pending queue, `ZADD` the popped id into the inflight set scored
by the claim timestamp, and update the command hash.  Returns the claimed
ids in pop order. -/
def claimLoop (now : Int) : Nat → DeviceState → List String × DeviceState
  | 0, st => ([], st)
  | fuel + 1, st =>
    match rpop st.pending with
    | none => ([], st)
    | some (cmd_id, rest) =>
      let st1 : DeviceState :=
        { st with pending := rest
                  inflight := zadd st.inflight cmd_id now
                  hashes := aupdate st.hashes cmd_id (claimStepHash now) emptyHash }
      let (ids, st2) := claimLoop now fuel st1
      (cmd_id :: ids, st2)

/-- The atomic Lua script of `claim_pending_commands` (lines 98-128): Redis
executes an `EVAL` as a single atomic unit, so the whole loop is one step of
the store.  `for i = 1, max_commands` runs `max(max_commands, 0)` times. -/
def claimLua (max_commands : Int) (now : Int) (st : DeviceState) :
    List String × DeviceState :=
  claimLoop now max_commands.toNat st

/-- `RemoteCommand.claim_pending_commands` (lines 91-137): run the atomic
script, then fetch the full record of each claimed id, dropping ids whose
hash has vanished. -/
def RemoteCommand.claim_pending_commands (device_id : String) (max_commands : Int)
    (now : Int) (st : DeviceState) : List Cmd × DeviceState :=
  let r := claimLua max_commands now st
  (r.1.filterMap (fun id => RemoteCommand.get device_id id r.2), r.2)

/-- `RemoteCommand.save` (lines 194-243) with the generated id and the
current timestamp passed explicitly.  Returns `.error` carrying the partial
state when Python would raise a `TypeError`: comparing `timeout_seconds`
with 0 while it is `None` (line 203, before any write), or comparing
`priority` with 0 while it is `None` (line 238, after the hash and time
index were already written). -/
def RemoteCommand.save (c : Cmd) (genId : String) (now : Int) (st : DeviceState) :
    Except DeviceState (Cmd × DeviceState) :=
  let c1 := if c.command_id = "" then { c with command_id := genId } else c
  let c2 := if pyTruthyInt c1.issued_ts then c1 else { c1 with issued_ts := some now }
  match (if pyTruthyInt c2.timeout_ts then some false
         else match c2.timeout_seconds with
              | none => none
              | some ts => some (decide (0 < ts))) with
  | none => .error st
  | some setTs =>
    let c3 := if setTs then
        { c2 with timeout_ts := some (c2.issued_ts.getD 0 + c2.timeout_seconds.getD 0) }
      else c2
    let st1 := { st with hashes := aset st.hashes c3.command_id (serializeCmd c3)
                         byTs := zadd st.byTs c3.command_id (c3.issued_ts.getD 0) }
    if c3.status = "pending" then
      match c3.priority with
      | none => .error st1
      | some p =>
        if 0 < p then .ok (c3, { st1 with pending := c3.command_id :: st1.pending })
        else .ok (c3, { st1 with pending := st1.pending ++ [c3.command_id] })
    else .ok (c3, st1)

/-- `RemoteCommand.is_expired` (lines 279-283) with the clock explicit. -/
def RemoteCommand.is_expired (c : Cmd) (now : Int) : Bool :=
  if !pyTruthyInt c.timeout_ts then false else decide (now > c.timeout_ts.getD 0)

/-- The loop body of `_recover_device_timed_out_commands` (lines 174-192)
for one candidate id.  `none` models the `TypeError` Python raises when
`attempts` or `max_attempts` deserialized to `None` (raised before any
write of that iteration). -/
def RemoteCommand.recoverStep (device_id : String) (now : Int) (st : DeviceState)
    (command_id : String) : Option DeviceState :=
  match RemoteCommand.get device_id command_id st with
  | none => some st
  | some command =>
    if pyTruthyInt command.timeout_ts && decide (now < command.timeout_ts.getD 0) then
      some st
    else
      match command.attempts, command.max_attempts with
      | some a, some m =>
        if m ≤ a then
          let r := RemoteCommand.update_status command "failed"
            ("Timeout after " ++ toString a ++ " attempts") none now st
          some { r.2 with inflight := zrem r.2.inflight command_id }
        else
          let r := RemoteCommand.update_status command "pending" "Timeout, retrying"
            none now st
          some { r.2 with pending := command_id :: r.2.pending
                          inflight := zrem r.2.inflight command_id }
      | _, _ => none

/-- Sequential processing of the candidate list; `.error` carries the state
accumulated before a raising iteration. -/
def RemoteCommand.recoverGo (device_id : String) (now : Int) :
    List String → DeviceState → Except DeviceState DeviceState
  | [], st => .ok st
  | id :: rest, st =>
    match RemoteCommand.recoverStep device_id now st id with
    | none => .error st
    | some st1 => RemoteCommand.recoverGo device_id now rest st1

/-- `_recover_device_timed_out_commands` (lines 162-192): candidates are the
inflight members whose claim score lies in `[0, now - 300]`, computed once
up front; each is then recovered in turn. -/
def RemoteCommand.recoverDevice (device_id : String) (now : Int) (st : DeviceState) :
    Except DeviceState DeviceState :=
  RemoteCommand.recoverGo device_id now (zrangebyscore st.inflight 0 (now - 300)) st

/-- The device state a sweep leaves behind, whether it ran to completion or
raised partway through. -/
def recoverResultState : Except DeviceState DeviceState → DeviceState
  | .ok st => st
  | .error st => st

/-- The condition under which the per-candidate recovery loop body leaves
the state untouched: the command hash is gone, or the command's own
`timeout_ts` is set, nonzero, and still in the future (line 180). -/
def recoverSkips (now : Int) (st : DeviceState) (id : String) : Bool :=
  match alookup st.hashes id with
  | none => true
  | some h => pyTruthyInt h.timeout_ts && decide (now < h.timeout_ts.getD 0)

/-- A batch of claim calls against one device, executed in sequence.  Redis
runs each call's Lua script atomically, so every concurrent schedule of N
claim calls is some sequential order of their scripts; quantifying over the
argument list covers all schedules. -/
def claimMany (now : Int) : List Int → DeviceState → List (List String) × DeviceState
  | [], st => ([], st)
  | m :: ms, st =>
    let r := claimLua m now st
    let r2 := claimMany now ms r.2
    (r.1 :: r2.1, r2.2)

/-- The queue/inflight consistency invariant of the spec: each stored
command is in at most one of the pending queue and the inflight set, the
membership matches its stored status, and the structures hold no duplicate
or dangling ids. -/
def CmdInv (st : DeviceState) : Prop :=
  st.pending.Nodup ∧
  (st.inflight.map Prod.fst).Nodup ∧
  (st.hashes.map Prod.fst).Nodup ∧
  (∀ id ∈ st.pending, (alookup st.hashes id).map CmdHash.status = some "pending") ∧
  (∀ p ∈ st.inflight, (alookup st.hashes p.1).map CmdHash.status = some "sent") ∧
  (∀ e ∈ st.hashes,
    (e.2.status = "pending" → e.1 ∈ st.pending ∧ e.1 ∉ st.inflight.map Prod.fst) ∧
    (e.2.status = "sent" → e.1 ∈ st.inflight.map Prod.fst ∧ e.1 ∉ st.pending) ∧
    (e.2.status ≠ "pending" → e.2.status ≠ "sent" →
      e.1 ∉ st.pending ∧ e.1 ∉ st.inflight.map Prod.fst))

instance (st : DeviceState) : Decidable (CmdInv st) := by
  unfold CmdInv
  infer_instance

/-- The stored attempts counter of a command, read the way `HINCRBY` reads
it: an absent hash or empty field counts as 0. -/
def attemptsZ (st : DeviceState) (id : String) : Int :=
  ((alookup st.hashes id).bind CmdHash.attempts).getD 0

/-- The operations of the running system that touch a device's command
state after issuance: a device polling (claim), a device reporting a result
(fetch + update_status, as the API route does), and a recovery sweep. -/
inductive StoreOp where
  | claimOp (max_commands : Int) (now : Int)
  | reportOp (command_id : String) (status : String) (error_message : String)
      (result_payload : Option String) (now : Int)
  | sweepOp (now : Int)

/-- Execute one operation; returns the new state and the ids the operation
claimed (empty for non-claim operations). -/
def execOp (device_id : String) (st : DeviceState) : StoreOp → DeviceState × List String
  | .claimOp m now =>
    let r := claimLua m now st
    (r.2, r.1)
  | .reportOp id status err rp now =>
    match RemoteCommand.get device_id id st with
    | none => (st, [])
    | some c => ((RemoteCommand.update_status c status err rp now st).2, [])
  | .sweepOp now => (recoverResultState (RemoteCommand.recoverDevice device_id now st), [])

/-- Execute a sequence of operations, collecting all claimed ids in order. -/
def execTrace (device_id : String) : List StoreOp → DeviceState → DeviceState × List String
  | [], st => (st, [])
  | op :: ops, st =>
    let r := execOp device_id st op
    let r2 := execTrace device_id ops r.1
    (r2.1, r.2 ++ r2.2)

/-- A freshly issued command with the given id and priority, as the API
constructs one (status pending, dataclass defaults for the rest). -/
def mkCmd (id : String) (p : Int) : Cmd :=
  { command_id := id, device_id := "dev1", command_type := "restart"
    payload := none, status := "pending", priority := some p, issued_ts := none
    sent_ts := none, result_ts := none, timeout_ts := none, attempts := some 0
    max_attempts := some 3, timeout_seconds := some 300, result_payload := none
    last_error := "", batch_id := none, notes := "", issued_by := "" }

/-- The empty device state: no queue, no inflight set, no stored hashes. -/
def st0 : DeviceState := ⟨[], [], [], []⟩

/-- The stored hash of a command that has been claimed once: status sent,
issued at 90, claimed at 100, deadline 400, one of three attempts used. -/
def sentHash : CmdHash :=
  { command_type := "restart", payload_json := none, status := "sent"
    priority := some 0, issued_ts := some 90, sent_ts := some 100
    result_ts := none, timeout_ts := some 400, attempts := some 1
    max_attempts := some 3, timeout_seconds := some 300
    result_payload_json := none, last_error := "", batch_id := ""
    notes := "", issued_by := "" }

/-- A device state holding one claimed command `c1`: status sent, claimed at
time 100 (its inflight score), stored hash `sentHash`. -/
def stSent : DeviceState :=
  { pending := []
    inflight := [("c1", 100)]
    hashes := [("c1", sentHash)]
    byTs := [("c1", 90)] }

/-- The stored hash of a claimed command created with `timeout_seconds = 0`:
no deadline was ever assigned, so `timeout_ts` is unset. -/
def noDeadlineHash : CmdHash :=
  { command_type := "restart", payload_json := none, status := "sent"
    priority := some 0, issued_ts := some 90, sent_ts := some 100
    result_ts := none, timeout_ts := none, attempts := some 1
    max_attempts := some 3, timeout_seconds := some 0
    result_payload_json := none, last_error := "", batch_id := ""
    notes := "", issued_by := "" }

/-- A device state holding the claimed no-deadline command `c2` inflight. -/
def stNoDeadline : DeviceState :=
  { pending := []
    inflight := [("c2", 100)]
    hashes := [("c2", noDeadlineHash)]
    byTs := [("c2", 90)] }

/-- The stored hash of a pending command as a first save leaves it: status
pending, priority 0, issued at 90, deadline 390, no attempts yet. -/
def pendingHash : CmdHash :=
  { command_type := "restart", payload_json := none, status := "pending"
    priority := some 0, issued_ts := some 90, sent_ts := none
    result_ts := none, timeout_ts := some 390, attempts := some 0
    max_attempts := some 3, timeout_seconds := some 300
    result_payload_json := none, last_error := "", batch_id := ""
    notes := "", issued_by := "" }

/-- A device state holding the single stored pending command `c1`, exactly
as one `save` of a fresh pending command leaves it. -/
def stPending : DeviceState :=
  { pending := ["c1"]
    inflight := []
    hashes := [("c1", pendingHash)]
    byTs := [("c1", 90)] }

/-- The stored hash of a command that has exhausted its attempts: status
sent, 3 of 3 attempts used, deadline 390 long past. -/
def exhaustedHash : CmdHash :=
  { command_type := "restart", payload_json := none, status := "sent"
    priority := some 0, issued_ts := some 90, sent_ts := some 100
    result_ts := none, timeout_ts := some 390, attempts := some 3
    max_attempts := some 3, timeout_seconds := some 300
    result_payload_json := none, last_error := "", batch_id := ""
    notes := "", issued_by := "" }

/-- A device state holding the exhausted command `c3` inflight. -/
def stExhausted : DeviceState :=
  { pending := []
    inflight := [("c3", 100)]
    hashes := [("c3", exhaustedHash)]
    byTs := [("c3", 90)] }

/-- The spec's priority scenario: issue three commands with priorities 0, 5,
0 in that order into an empty device state, then claim once with
`max_commands = 3`; the result is the list of claimed command ids in claim
order. -/
def priorityScenario : Except DeviceState (List String) :=
  (RemoteCommand.save (mkCmd "c1" 0) "g1" 100 st0).bind (fun r1 =>
  (RemoteCommand.save (mkCmd "c2" 5) "g2" 101 r1.2).bind (fun r2 =>
  (RemoteCommand.save (mkCmd "c3" 0) "g3" 102 r2.2).map (fun r3 =>
  (claimLua 3 200 r3.2).1)))

/-! ### Association-list and sorted-set lemmas -/

theorem alookup_mem {α : Type} {l : List (String × α)} {k : String} {v : α}
    (h : alookup l k = some v) : (k, v) ∈ l := by
  induction l with
  | nil => simp [alookup] at h
  | cons e rest ih =>
    obtain ⟨k', v'⟩ := e
    by_cases hk : k' = k
    · subst hk
      simp [alookup] at h
      simp [h]
    · simp [alookup, hk] at h
      exact List.mem_cons_of_mem _ (ih h)

theorem mem_alookup_of_nodup {α : Type} {l : List (String × α)} {k : String} {v : α}
    (hnd : (l.map Prod.fst).Nodup) (h : (k, v) ∈ l) : alookup l k = some v := by
  induction l with
  | nil => simp at h
  | cons e rest ih =>
    obtain ⟨k', v'⟩ := e
    simp only [List.map_cons, List.nodup_cons] at hnd
    rcases List.mem_cons.mp h with h1 | h1
    · obtain ⟨hk, hv⟩ := Prod.mk.injEq .. ▸ h1
      simp [alookup, hk.symm, hv]
    · have hk : k' ≠ k := by
        rintro rfl
        exact hnd.1 (List.mem_map.mpr ⟨(k', v), h1, rfl⟩)
      simp [alookup, hk]
      exact ih hnd.2 h1

theorem alookup_aset_self {α : Type} (l : List (String × α)) (k : String) (v : α) :
    alookup (aset l k v) k = some v := by
  induction l with
  | nil => simp [aset, alookup]
  | cons e rest ih =>
    obtain ⟨k', v'⟩ := e
    by_cases hk : k' = k
    · simp [aset, hk, alookup]
    · simp [aset, hk, alookup, ih]

theorem alookup_aset_ne {α : Type} (l : List (String × α)) (k k' : String) (v : α)
    (hk : k' ≠ k) : alookup (aset l k v) k' = alookup l k' := by
  induction l with
  | nil => simp [aset, alookup, Ne.symm hk]
  | cons e rest ih =>
    obtain ⟨k0, v0⟩ := e
    by_cases h0 : k0 = k
    · subst h0
      simp [aset, alookup, Ne.symm hk]
    · by_cases h1 : k0 = k'
      · subst h1
        simp [aset, h0, alookup, hk]
      · simp [aset, h0, alookup, h1, ih]

theorem aset_eq_self {α : Type} {l : List (String × α)} {k : String} {v : α}
    (h : alookup l k = some v) : aset l k v = l := by
  induction l with
  | nil => simp [alookup] at h
  | cons e rest ih =>
    obtain ⟨k', v'⟩ := e
    by_cases hk : k' = k
    · subst hk
      simp [alookup] at h
      simp [aset, h]
    · simp [alookup, hk] at h
      simp [aset, hk, ih h]

theorem alookup_aupdate_self {α : Type} (l : List (String × α)) (k : String)
    (f : α → α) (d : α) :
    alookup (aupdate l k f d) k = some (f ((alookup l k).getD d)) := by
  induction l with
  | nil => simp [aupdate, alookup]
  | cons e rest ih =>
    obtain ⟨k', v'⟩ := e
    by_cases hk : k' = k
    · simp [aupdate, hk, alookup]
    · simp [aupdate, hk, alookup, ih]

theorem alookup_aupdate_ne {α : Type} (l : List (String × α)) (k k' : String)
    (f : α → α) (d : α) (hk : k' ≠ k) :
    alookup (aupdate l k f d) k' = alookup l k' := by
  induction l with
  | nil => simp [aupdate, alookup, Ne.symm hk]
  | cons e rest ih =>
    obtain ⟨k0, v0⟩ := e
    by_cases h0 : k0 = k
    · subst h0
      simp [aupdate, alookup, Ne.symm hk]
    · by_cases h1 : k0 = k'
      · subst h1
        simp [aupdate, h0, alookup, hk]
      · simp [aupdate, h0, alookup, h1, ih]

theorem aset_keys_of_mem {α : Type} {l : List (String × α)} {k : String} (v : α)
    (h : k ∈ l.map Prod.fst) : (aset l k v).map Prod.fst = l.map Prod.fst := by
  induction l with
  | nil => simp at h
  | cons e rest ih =>
    obtain ⟨k', v'⟩ := e
    by_cases hk : k' = k
    · subst hk
      simp [aset]
    · simp only [List.map_cons, List.mem_cons] at h
      rcases h with h | h
      · exact absurd h.symm hk
      · simp [aset, hk, ih h]

theorem aset_keys_of_not_mem {α : Type} {l : List (String × α)} {k : String} (v : α)
    (h : k ∉ l.map Prod.fst) : (aset l k v).map Prod.fst = l.map Prod.fst ++ [k] := by
  induction l with
  | nil => simp [aset]
  | cons e rest ih =>
    obtain ⟨k', v'⟩ := e
    simp only [List.map_cons, List.mem_cons] at h
    push_neg at h
    simp [aset, Ne.symm h.1, ih h.2]

theorem aupdate_keys_of_mem {α : Type} {l : List (String × α)} {k : String}
    (f : α → α) (d : α) (h : k ∈ l.map Prod.fst) :
    (aupdate l k f d).map Prod.fst = l.map Prod.fst := by
  induction l with
  | nil => simp at h
  | cons e rest ih =>
    obtain ⟨k', v'⟩ := e
    by_cases hk : k' = k
    · subst hk
      simp [aupdate]
    · simp only [List.map_cons, List.mem_cons] at h
      rcases h with h | h
      · exact absurd h.symm hk
      · simp [aupdate, hk, ih h]

theorem aupdate_keys_of_not_mem {α : Type} {l : List (String × α)} {k : String}
    (f : α → α) (d : α) (h : k ∉ l.map Prod.fst) :
    (aupdate l k f d).map Prod.fst = l.map Prod.fst ++ [k] := by
  induction l with
  | nil => simp [aupdate]
  | cons e rest ih =>
    obtain ⟨k', v'⟩ := e
    simp only [List.map_cons, List.mem_cons] at h
    push_neg at h
    simp [aupdate, Ne.symm h.1, ih h.2]

theorem aset_keys_nodup {α : Type} {l : List (String × α)} {k : String} {v : α}
    (hnd : (l.map Prod.fst).Nodup) : ((aset l k v).map Prod.fst).Nodup := by
  by_cases h : k ∈ l.map Prod.fst
  · rw [aset_keys_of_mem v h]
    exact hnd
  · rw [aset_keys_of_not_mem v h]
    simp [List.nodup_append, hnd, h]

theorem aupdate_keys_nodup {α : Type} {l : List (String × α)} {k : String}
    {f : α → α} {d : α} (hnd : (l.map Prod.fst).Nodup) :
    ((aupdate l k f d).map Prod.fst).Nodup := by
  by_cases h : k ∈ l.map Prod.fst
  · rw [aupdate_keys_of_mem f d h]
    exact hnd
  · rw [aupdate_keys_of_not_mem f d h]
    simp [List.nodup_append, hnd, h]

theorem alookup_eq_none_of_not_mem {α : Type} {l : List (String × α)} {k : String}
    (h : k ∉ l.map Prod.fst) : alookup l k = none := by
  induction l with
  | nil => simp [alookup]
  | cons e rest ih =>
    obtain ⟨k', v'⟩ := e
    simp only [List.map_cons, List.mem_cons] at h
    push_neg at h
    simp [alookup, Ne.symm h.1, ih h.2]

theorem mem_zrem {z : List (String × Int)} {m : String} {p : String × Int} :
    p ∈ zrem z m ↔ p ∈ z ∧ p.1 ≠ m := by
  simp [zrem, List.mem_filter]

theorem mem_zinsert {z : List (String × Int)} {m : String} {s : Int} {p : String × Int} :
    p ∈ zinsert m s z ↔ p = (m, s) ∨ p ∈ z := by
  induction z with
  | nil => simp [zinsert]
  | cons e rest ih =>
    obtain ⟨m', s'⟩ := e
    simp only [zinsert]
    split
    · simp only [List.mem_cons]
    · simp only [List.mem_cons, ih]
      tauto

theorem mem_zadd {z : List (String × Int)} {m : String} {s : Int} {p : String × Int} :
    p ∈ zadd z m s ↔ p = (m, s) ∨ (p ∈ z ∧ p.1 ≠ m) := by
  simp [zadd, mem_zinsert, mem_zrem]

theorem zrem_keys_sublist (z : List (String × Int)) (m : String) :
    List.Sublist ((zrem z m).map Prod.fst) (z.map Prod.fst) :=
  (List.filter_sublist z).map Prod.fst

theorem not_mem_zrem_keys (z : List (String × Int)) (m : String) :
    m ∉ (zrem z m).map Prod.fst := by
  intro h
  rcases List.mem_map.mp h with ⟨p, hp, hfst⟩
  exact (mem_zrem.mp hp).2 hfst

theorem zinsert_keys_perm (z : List (String × Int)) (m : String) (s : Int) :
    List.Perm ((zinsert m s z).map Prod.fst) (m :: z.map Prod.fst) := by
  induction z with
  | nil => simp [zinsert]
  | cons e rest ih =>
    obtain ⟨m', s'⟩ := e
    simp only [zinsert]
    split
    · simp
    · simp only [List.map_cons]
      exact (ih.cons m').trans (List.Perm.swap m m' _)

theorem zadd_keys_nodup {z : List (String × Int)} {m : String} {s : Int}
    (hnd : (z.map Prod.fst).Nodup) : ((zadd z m s).map Prod.fst).Nodup := by
  have h1 : ((zrem z m).map Prod.fst).Nodup := (zrem_keys_sublist z m).nodup hnd
  have h2 := zinsert_keys_perm (zrem z m) m s
  exact h2.nodup_iff.mpr (List.nodup_cons.mpr ⟨not_mem_zrem_keys z m, h1⟩)

theorem mem_zadd_keys {z : List (String × Int)} {m k : String} {s : Int} :
    k ∈ (zadd z m s).map Prod.fst ↔ k = m ∨ k ∈ (zrem z m).map Prod.fst := by
  constructor
  · intro h
    rcases List.mem_map.mp h with ⟨p, hp, hfst⟩
    rcases mem_zinsert.mp hp with h1 | h1
    · left
      rw [← hfst, h1]
    · right
      exact List.mem_map.mpr ⟨p, h1, hfst⟩
  · intro h
    rcases h with rfl | h
    · exact List.mem_map.mpr ⟨(k, s), mem_zinsert.mpr (Or.inl rfl), rfl⟩
    · rcases List.mem_map.mp h with ⟨p, hp, hfst⟩
      exact List.mem_map.mpr ⟨p, mem_zinsert.mpr (Or.inr hp), hfst⟩

theorem alookup_zrem_ne {z : List (String × Int)} {m k : String} (hk : k ≠ m) :
    alookup (zrem z m) k = alookup z k := by
  induction z with
  | nil => rfl
  | cons e rest ih =>
    obtain ⟨m', s'⟩ := e
    simp only [zrem, List.filter_cons] at *
    by_cases hm : m' = m
    · subst hm
      simp [alookup, Ne.symm hk, ih]
    · by_cases hmk : m' = k
      · subst hmk
        simp [alookup, hm, ih]
      · simp [alookup, hm, hmk, ih]

theorem alookup_zrem_self (z : List (String × Int)) (m : String) :
    alookup (zrem z m) m = none :=
  alookup_eq_none_of_not_mem (not_mem_zrem_keys z m)

theorem alookup_zinsert_ne {z : List (String × Int)} {m k : String} {s : Int}
    (hk : k ≠ m) : alookup (zinsert m s z) k = alookup z k := by
  induction z with
  | nil => simp [zinsert, alookup, Ne.symm hk]
  | cons e rest ih =>
    obtain ⟨m', s'⟩ := e
    simp only [zinsert]
    split
    · simp [alookup, Ne.symm hk]
    · by_cases hmk : m' = k
      · simp [alookup, hmk]
      · simp [alookup, hmk, ih]

theorem alookup_zinsert_self {z : List (String × Int)} {m : String} {s : Int}
    (h : m ∉ z.map Prod.fst) : alookup (zinsert m s z) m = some s := by
  induction z with
  | nil => simp [zinsert, alookup]
  | cons e rest ih =>
    obtain ⟨m', s'⟩ := e
    simp only [List.map_cons, List.mem_cons] at h
    push_neg at h
    simp only [zinsert]
    split
    · simp [alookup]
    · simp [alookup, Ne.symm h.1, ih h.2]

theorem zlookup_zadd_self (z : List (String × Int)) (m : String) (s : Int) :
    zlookup (zadd z m s) m = some s :=
  alookup_zinsert_self (not_mem_zrem_keys z m)

theorem zlookup_zadd_ne {z : List (String × Int)} {m k : String} {s : Int}
    (hk : k ≠ m) : zlookup (zadd z m s) k = zlookup z k := by
  unfold zlookup zadd
  rw [alookup_zinsert_ne hk, alookup_zrem_ne hk]

theorem zlookup_zrem_ne {z : List (String × Int)} {m k : String} (hk : k ≠ m) :
    zlookup (zrem z m) k = zlookup z k :=
  alookup_zrem_ne hk

theorem mem_zrangebyscore {z : List (String × Int)} {lo hi : Int} {id : String} :
    id ∈ zrangebyscore z lo hi ↔ ∃ s, (id, s) ∈ z ∧ lo ≤ s ∧ s ≤ hi := by
  simp only [zrangebyscore, List.mem_map, List.mem_filter]
  constructor
  · rintro ⟨⟨m, s⟩, ⟨hp, hcond⟩, rfl⟩
    simp only [decide_eq_true_eq] at hcond
    exact ⟨s, hp, hcond⟩
  · rintro ⟨s, hp, h1, h2⟩
    refine ⟨(id, s), ⟨hp, ?_⟩, rfl⟩
    simp [h1, h2]

theorem zrangebyscore_sublist_keys (z : List (String × Int)) (lo hi : Int) :
    List.Sublist (zrangebyscore z lo hi) (z.map Prod.fst) :=
  (List.filter_sublist z).map Prod.fst

theorem zrangebyscore_nodup {z : List (String × Int)} {lo hi : Int}
    (hnd : (z.map Prod.fst).Nodup) : (zrangebyscore z lo hi).Nodup :=
  (zrangebyscore_sublist_keys z lo hi).nodup hnd

theorem mem_keys_of_mem_zrangebyscore {z : List (String × Int)} {lo hi : Int}
    {id : String} (h : id ∈ zrangebyscore z lo hi) : id ∈ z.map Prod.fst :=
  (zrangebyscore_sublist_keys z lo hi).mem h

/-! ### Pending-queue pop and claim-loop characterization -/

theorem rpop_eq_none_iff {α : Type} {l : List α} : rpop l = none ↔ l = [] := by
  unfold rpop
  cases h : l.reverse with
  | nil =>
    simp only [true_iff]
    simpa using congrArg List.reverse h
  | cons x xs =>
    simp only [iff_false]
    constructor
    · intro hs
      cases hs
    · intro hl
      subst hl
      simp at h

theorem rpop_eq_some {α : Type} {l : List α} {x : α} {r : List α}
    (h : rpop l = some (x, r)) : l.reverse = x :: r.reverse := by
  unfold rpop at h
  cases hr : l.reverse with
  | nil => simp [hr] at h
  | cons y ys =>
    simp only [hr] at h
    obtain ⟨hy, hrest⟩ := Prod.mk.injEq .. ▸ Option.some.injEq .. ▸ h
    subst hy
    rw [← hrest]
    simp

theorem claimLoop_spec (now : Int) (fuel : Nat) : ∀ st : DeviceState,
    (claimLoop now fuel st).1 = st.pending.reverse.take fuel ∧
    (claimLoop now fuel st).2.pending.reverse = st.pending.reverse.drop fuel := by
  induction fuel with
  | zero => intro st; simp [claimLoop]
  | succ fuel ih =>
    intro st
    cases h : rpop st.pending with
    | none =>
      have hnil : st.pending = [] := rpop_eq_none_iff.mp h
      simp [claimLoop, hnil, rpop]
    | some pr =>
      obtain ⟨x, rest⟩ := pr
      have hrev : st.pending.reverse = x :: rest.reverse := rpop_eq_some h
      simp only [claimLoop, h]
      have ih1 := ih { st with pending := rest
                               inflight := zadd st.inflight x now
                               hashes := aupdate st.hashes x (claimStepHash now) emptyHash }
      constructor
      · simp only [hrev, List.take_succ_cons]
        rw [← ih1.1]
      · simp only [hrev, List.drop_succ_cons]
        rw [← ih1.2]

theorem claimLua_fst (m now : Int) (st : DeviceState) :
    (claimLua m now st).1 = st.pending.reverse.take m.toNat :=
  (claimLoop_spec now m.toNat st).1

theorem claimLua_pending (m now : Int) (st : DeviceState) :
    (claimLua m now st).2.pending.reverse = st.pending.reverse.drop m.toNat :=
  (claimLoop_spec now m.toNat st).2

theorem claimMany_spec (now : Int) (ms : List Int) : ∀ st : DeviceState,
    (claimMany now ms st).1.flatten = st.pending.reverse.take ((ms.map Int.toNat).sum) ∧
    (claimMany now ms st).2.pending.reverse = st.pending.reverse.drop ((ms.map Int.toNat).sum) := by
  induction ms with
  | nil => intro st; simp [claimMany]
  | cons m ms ih =>
    intro st
    simp only [claimMany, List.map_cons, List.sum_cons]
    obtain ⟨ih1, ih2⟩ := ih (claimLua m now st).2
    constructor
    · simp only [List.flatten_cons, claimLua_fst, ih1, claimLua_pending]
      exact (List.take_add ..).symm
    · simp only [ih2, claimLua_pending, List.drop_drop]

theorem claimLoop_of_pending_nil {now : Int} {fuel : Nat} {st : DeviceState}
    (h : st.pending = []) : claimLoop now fuel st = ([], st) := by
  cases fuel with
  | zero => rfl
  | succ fuel => simp [claimLoop, h, rpop]

/-! ### C1, C3, C9 -/

/-- C1: for any number of claim calls executed against one device (each
call's Lua script being a single atomic step of the store, every concurrent
schedule is some sequence of calls, covered by quantifying over the list of
`max_commands` arguments), the ids handed out across all calls are pairwise
distinct and their total count is exactly `min K (total requested)`, where
`K` is the number of initially pending commands. -/
theorem claim_exactly_once_across_calls (ms : List Int) (now : Int) (st : DeviceState)
    (hnd : st.pending.Nodup) :
    (claimMany now ms st).1.flatten.length =
      min st.pending.length ((ms.map Int.toNat).sum) ∧
    (claimMany now ms st).1.flatten.Nodup := by
  obtain ⟨h1, _⟩ := claimMany_spec now ms st
  constructor
  · rw [h1, List.length_take, List.length_reverse, Nat.min_comm]
  · rw [h1]
    exact (List.take_sublist _ _).nodup (List.nodup_reverse.mpr hnd)

/-- Witness for C1 at a concrete input: three distinct pending commands,
two claim calls asking for two each; exactly `min 3 4 = 3` ids are handed
out, without duplication. -/
theorem claim_exactly_once_across_calls_witness :
    (DeviceState.mk ["a", "b", "c"] [] [] []).pending.Nodup ∧
    ((claimMany 50 [2, 2] (DeviceState.mk ["a", "b", "c"] [] [] [])).1.flatten.length =
        min (DeviceState.mk ["a", "b", "c"] [] [] []).pending.length
          (([2, 2].map Int.toNat).sum) ∧
      (claimMany 50 [2, 2] (DeviceState.mk ["a", "b", "c"] [] [] [])).1.flatten.Nodup) :=
  ⟨by decide, claim_exactly_once_across_calls [2, 2] 50 _ (by decide)⟩

/-- C3 (code bug): issuing commands with priorities 0, 5, 0 and claiming
three yields claim order `[c3, c1, c2]` — the second priority-0 command
first and the priority-5 command last — not the order
`[c2 (priority 5), c1, c3]` the claim states.  `save` LPUSHes priority
commands to the list head ("front" per its own comment) but the claim
script pops with RPOP from the tail, so priority commands are claimed last
and priority-0 commands are claimed in LIFO order. -/
theorem claim_priority_order_scenario :
    priorityScenario = .ok ["c3", "c1", "c2"] ∧
    (["c3", "c1", "c2"] : List String) ≠ ["c2", "c1", "c3"] := by
  constructor
  · rfl
  · decide

/-- C9: `claim_pending_commands` is total and non-blocking: against an empty
pending queue it returns the empty list and leaves the state untouched (an
empty result, not an error), and in every state it returns at most
`max_commands` commands. -/
theorem claim_empty_queue_nonblocking (device_id : String) (max_commands now : Int)
    (st : DeviceState) :
    (st.pending = [] →
      RemoteCommand.claim_pending_commands device_id max_commands now st = ([], st)) ∧
    (RemoteCommand.claim_pending_commands device_id max_commands now st).1.length ≤
      max_commands.toNat := by
  constructor
  · intro h
    unfold RemoteCommand.claim_pending_commands claimLua
    rw [claimLoop_of_pending_nil h]
    rfl
  · unfold RemoteCommand.claim_pending_commands
    calc (((claimLua max_commands now st).1.filterMap _).length)
        ≤ (claimLua max_commands now st).1.length := List.length_filterMap_le _ _
      _ ≤ max_commands.toNat := by
          rw [claimLua_fst, List.length_take]
          exact Nat.min_le_left _ _

/-- Witness for C9 at a concrete input: the empty state with
`max_commands = 5` yields the empty command list and at most five results. -/
theorem claim_empty_queue_nonblocking_witness :
    st0.pending = [] ∧
    RemoteCommand.claim_pending_commands "dev1" 5 0 st0 = ([], st0) ∧
    (RemoteCommand.claim_pending_commands "dev1" 5 0 st0).1.length ≤ (5 : Int).toNat :=
  ⟨rfl, (claim_empty_queue_nonblocking "dev1" 5 0 st0).1 rfl,
    (claim_empty_queue_nonblocking "dev1" 5 0 st0).2⟩

/-! ### update_status projections -/

theorem update_status_pending_proj (c : Cmd) (s e : String) (rp : Option String)
    (now : Int) (st : DeviceState) :
    (RemoteCommand.update_status c s e rp now st).2.pending = st.pending := by
  unfold RemoteCommand.update_status
  by_cases hterm : s = "success" ∨ s = "failed" <;> simp [hterm]

theorem update_status_byTs_proj (c : Cmd) (s e : String) (rp : Option String)
    (now : Int) (st : DeviceState) :
    (RemoteCommand.update_status c s e rp now st).2.byTs = st.byTs := by
  unfold RemoteCommand.update_status
  by_cases hterm : s = "success" ∨ s = "failed" <;> simp [hterm]

theorem update_status_inflight_proj (c : Cmd) (s e : String) (rp : Option String)
    (now : Int) (st : DeviceState) :
    (RemoteCommand.update_status c s e rp now st).2.inflight =
      if s = "success" ∨ s = "failed" then zrem st.inflight c.command_id
      else st.inflight := by
  unfold RemoteCommand.update_status
  by_cases hterm : s = "success" ∨ s = "failed" <;> simp [hterm]

theorem update_status_hashes_ne (c : Cmd) (s e : String) (rp : Option String)
    (now : Int) (st : DeviceState) (j : String) (hj : j ≠ c.command_id) :
    alookup (RemoteCommand.update_status c s e rp now st).2.hashes j =
      alookup st.hashes j := by
  unfold RemoteCommand.update_status
  by_cases hterm : s = "success" ∨ s = "failed" <;>
    simp [hterm, alookup_aupdate_ne _ _ _ _ _ hj]

theorem update_status_hash_status (c : Cmd) (s e : String) (rp : Option String)
    (now : Int) (st : DeviceState) :
    (alookup (RemoteCommand.update_status c s e rp now st).2.hashes
        c.command_id).map CmdHash.status = some s := by
  unfold RemoteCommand.update_status
  by_cases hterm : s = "success" ∨ s = "failed" <;>
  by_cases he : pyTruthyStr e <;>
  by_cases hrp : pyTruthyDict rp <;>
    simp [hterm, he, hrp, alookup_aupdate_self, apply_ite CmdHash.status]

theorem update_status_hash_last_error (c : Cmd) (s e : String) (rp : Option String)
    (now : Int) (st : DeviceState) :
    (alookup (RemoteCommand.update_status c s e rp now st).2.hashes
        c.command_id).map CmdHash.last_error =
      some (if pyTruthyStr e then e else c.last_error) := by
  unfold RemoteCommand.update_status
  by_cases hterm : s = "success" ∨ s = "failed" <;>
  by_cases he : pyTruthyStr e <;>
  by_cases hrp : pyTruthyDict rp <;>
    simp [hterm, he, hrp, alookup_aupdate_self, apply_ite CmdHash.last_error]

theorem update_status_hash_result_ts_term (c : Cmd) (s e : String) (rp : Option String)
    (now : Int) (st : DeviceState) (hterm : s = "success" ∨ s = "failed")
    (hnow : now ≠ 0) :
    (alookup (RemoteCommand.update_status c s e rp now st).2.hashes
        c.command_id).map CmdHash.result_ts = some (some now) := by
  unfold RemoteCommand.update_status
  have ht : pyTruthyInt (some now) = true := by simp [pyTruthyInt, hnow]
  by_cases he : pyTruthyStr e <;>
  by_cases hrp : pyTruthyDict rp <;>
    simp [hterm, he, hrp, ht, alookup_aupdate_self, apply_ite CmdHash.result_ts]

theorem update_status_hash_result_payload (c : Cmd) (s e : String)
    (rp : Option String) (now : Int) (st : DeviceState) :
    (alookup (RemoteCommand.update_status c s e rp now st).2.hashes
        c.command_id).map CmdHash.result_payload_json =
      some (if pyTruthyDict rp then rp else c.result_payload) := by
  unfold RemoteCommand.update_status
  by_cases hterm : s = "success" ∨ s = "failed" <;>
  by_cases he : pyTruthyStr e <;>
  by_cases hrp : pyTruthyDict rp <;>
    simp [hterm, he, hrp, alookup_aupdate_self, apply_ite CmdHash.result_payload_json]

theorem update_status_attemptsZ (c : Cmd) (s e : String) (rp : Option String)
    (now : Int) (st : DeviceState) (id : String) :
    attemptsZ (RemoteCommand.update_status c s e rp now st).2 id = attemptsZ st id := by
  by_cases hj : id = c.command_id
  · subst hj
    unfold attemptsZ RemoteCommand.update_status
    by_cases hterm : s = "success" ∨ s = "failed" <;>
    by_cases he : pyTruthyStr e <;>
    by_cases hrp : pyTruthyDict rp <;>
    · cases halo : alookup st.hashes c.command_id <;>
        simp [hterm, he, hrp, halo, alookup_aupdate_self,
          apply_ite CmdHash.attempts, emptyHash]
  · unfold attemptsZ
    rw [update_status_hashes_ne c s e rp now st id hj]

/-! ### recoverStep branch lemmas -/

theorem get_eq_some {device_id id : String} {st : DeviceState} {h : CmdHash}
    (halo : alookup st.hashes id = some h) :
    RemoteCommand.get device_id id st = some (cmdOfHash device_id id h) := by
  unfold RemoteCommand.get
  rw [halo]

theorem get_eq_none {device_id id : String} {st : DeviceState}
    (halo : alookup st.hashes id = none) :
    RemoteCommand.get device_id id st = none := by
  unfold RemoteCommand.get
  rw [halo]

theorem recoverStep_of_skips {device_id id : String} {now : Int} {st : DeviceState}
    (hskip : recoverSkips now st id = true) :
    RemoteCommand.recoverStep device_id now st id = some st := by
  unfold RemoteCommand.recoverStep
  unfold recoverSkips at hskip
  cases halo : alookup st.hashes id with
  | none => rw [get_eq_none halo]
  | some h =>
    rw [get_eq_some halo]
    rw [halo] at hskip
    have hs : (pyTruthyInt h.timeout_ts && decide (now < h.timeout_ts.getD 0)) = true :=
      hskip
    simp [cmdOfHash, hs]

theorem recoverStep_fail_eq {device_id id : String} {now : Int} {st : DeviceState}
    {h : CmdHash} {a m : Int} (halo : alookup st.hashes id = some h)
    (hskip : (pyTruthyInt h.timeout_ts && decide (now < h.timeout_ts.getD 0)) = false)
    (ha : h.attempts = some a) (hm : h.max_attempts = some m) (hge : m ≤ a) :
    RemoteCommand.recoverStep device_id now st id =
      some { (RemoteCommand.update_status (cmdOfHash device_id id h) "failed"
                ("Timeout after " ++ toString a ++ " attempts") none now st).2 with
             inflight := zrem (RemoteCommand.update_status (cmdOfHash device_id id h)
                "failed" ("Timeout after " ++ toString a ++ " attempts")
                none now st).2.inflight id } := by
  unfold RemoteCommand.recoverStep
  rw [get_eq_some halo]
  simp only [cmdOfHash, hskip, Bool.false_eq_true, if_false, ha, hm, if_pos hge]

theorem recoverStep_retry_eq {device_id id : String} {now : Int} {st : DeviceState}
    {h : CmdHash} {a m : Int} (halo : alookup st.hashes id = some h)
    (hskip : (pyTruthyInt h.timeout_ts && decide (now < h.timeout_ts.getD 0)) = false)
    (ha : h.attempts = some a) (hm : h.max_attempts = some m) (hlt : a < m) :
    RemoteCommand.recoverStep device_id now st id =
      some { (RemoteCommand.update_status (cmdOfHash device_id id h) "pending"
                "Timeout, retrying" none now st).2 with
             pending := id :: (RemoteCommand.update_status (cmdOfHash device_id id h)
                "pending" "Timeout, retrying" none now st).2.pending
             inflight := zrem (RemoteCommand.update_status (cmdOfHash device_id id h)
                "pending" "Timeout, retrying" none now st).2.inflight id } := by
  unfold RemoteCommand.recoverStep
  rw [get_eq_some halo]
  have hnot : ¬ (m ≤ a) := not_le.mpr hlt
  simp only [cmdOfHash, hskip, Bool.false_eq_true, if_false, ha, hm, if_neg hnot]

theorem recoverStep_raises {device_id id : String} {now : Int} {st : DeviceState}
    {h : CmdHash} (halo : alookup st.hashes id = some h)
    (hskip : (pyTruthyInt h.timeout_ts && decide (now < h.timeout_ts.getD 0)) = false)
    (hnone : h.attempts = none ∨ h.max_attempts = none) :
    RemoteCommand.recoverStep device_id now st id = none := by
  unfold RemoteCommand.recoverStep
  rw [get_eq_some halo]
  simp only [cmdOfHash, hskip, Bool.false_eq_true, if_false]
  rcases hnone with hn | hn
  · rw [hn]
  · rw [hn]
    cases h.attempts <;> rfl

theorem pyTruthyStr_of_ne {s : String} (h : s ≠ "") : pyTruthyStr s = true := by
  simp [pyTruthyStr, h]

theorem timeout_msg_ne_empty (t : String) : ("Timeout after " ++ t) ≠ "" := by
  intro hcontra
  have hdata := congrArg String.data hcontra
  rw [String.data_append] at hdata
  simp only [List.append_eq_nil] at hdata
  exact absurd (congrArg String.mk hdata.1) (by decide)

/-! ### C4 -/

/-- C4: for a recovery sweep whose single inflight candidate (claim score in
`[0, now - 300]`) is the command `id` with stored hash `h`: if the command's
own deadline is set and still in the future the sweep changes nothing; else
if its attempts have reached `max_attempts` it is marked failed with an
attempt-exhaustion error and removed from the inflight set, leaving the
pending queue alone; else it is marked pending with the retry note, its id
is pushed onto the LPUSH end of the pending queue (the end opposite the
RPOP end claims consume, i.e. the back of the queue), and it is removed
from the inflight set. -/
theorem recover_candidate_behavior (device_id id : String) (now : Int)
    (st : DeviceState) (h : CmdHash) (a m : Int)
    (halo : alookup st.hashes id = some h)
    (ha : h.attempts = some a) (hm : h.max_attempts = some m)
    (hcand : zrangebyscore st.inflight 0 (now - 300) = [id]) :
    ((pyTruthyInt h.timeout_ts && decide (now < h.timeout_ts.getD 0)) = true →
      RemoteCommand.recoverDevice device_id now st = .ok st) ∧
    ((pyTruthyInt h.timeout_ts && decide (now < h.timeout_ts.getD 0)) = false → m ≤ a →
      ∃ st', RemoteCommand.recoverDevice device_id now st = .ok st' ∧
        (alookup st'.hashes id).map CmdHash.status = some "failed" ∧
        (alookup st'.hashes id).map CmdHash.last_error =
          some ("Timeout after " ++ toString a ++ " attempts") ∧
        id ∉ st'.inflight.map Prod.fst ∧
        st'.pending = st.pending) ∧
    ((pyTruthyInt h.timeout_ts && decide (now < h.timeout_ts.getD 0)) = false → a < m →
      ∃ st', RemoteCommand.recoverDevice device_id now st = .ok st' ∧
        (alookup st'.hashes id).map CmdHash.status = some "pending" ∧
        (alookup st'.hashes id).map CmdHash.last_error = some "Timeout, retrying" ∧
        st'.pending = id :: st.pending ∧
        id ∉ st'.inflight.map Prod.fst) := by
  unfold RemoteCommand.recoverDevice
  rw [hcand]
  refine ⟨?_, ?_, ?_⟩
  · intro hskip
    have hsk : recoverSkips now st id = true := by
      unfold recoverSkips
      rw [halo]
      exact hskip
    simp [RemoteCommand.recoverGo, recoverStep_of_skips hsk]
  · intro hskip hge
    have hstep := @recoverStep_fail_eq device_id id now st h a m halo hskip ha hm hge
    refine ⟨{ (RemoteCommand.update_status (cmdOfHash device_id id h) "failed"
                ("Timeout after " ++ toString a ++ " attempts") none now st).2 with
              inflight := zrem (RemoteCommand.update_status (cmdOfHash device_id id h)
                "failed" ("Timeout after " ++ toString a ++ " attempts")
                none now st).2.inflight id }, ?_, ?_, ?_, ?_, ?_⟩
    · simp [RemoteCommand.recoverGo, hstep]
    · have := update_status_hash_status (cmdOfHash device_id id h) "failed"
        ("Timeout after " ++ toString a ++ " attempts") none now st
      simpa [cmdOfHash] using this
    · have := update_status_hash_last_error (cmdOfHash device_id id h) "failed"
        ("Timeout after " ++ toString a ++ " attempts") none now st
      simpa [cmdOfHash, pyTruthyStr_of_ne (timeout_msg_ne_empty _)] using this
    · exact not_mem_zrem_keys _ _
    · simp [update_status_pending_proj]
  · intro hskip hlt
    have hstep := @recoverStep_retry_eq device_id id now st h a m halo hskip ha hm hlt
    refine ⟨{ (RemoteCommand.update_status (cmdOfHash device_id id h) "pending"
                "Timeout, retrying" none now st).2 with
              pending := id :: (RemoteCommand.update_status (cmdOfHash device_id id h)
                "pending" "Timeout, retrying" none now st).2.pending
              inflight := zrem (RemoteCommand.update_status (cmdOfHash device_id id h)
                "pending" "Timeout, retrying" none now st).2.inflight id },
        ?_, ?_, ?_, ?_, ?_⟩
    · simp [RemoteCommand.recoverGo, hstep]
    · have := update_status_hash_status (cmdOfHash device_id id h) "pending"
        "Timeout, retrying" none now st
      simpa [cmdOfHash] using this
    · have := update_status_hash_last_error (cmdOfHash device_id id h) "pending"
        "Timeout, retrying" none now st
      simpa [cmdOfHash, pyTruthyStr] using this
    · simp [update_status_pending_proj]
    · exact not_mem_zrem_keys _ _

/-- Witness for C4 at a concrete input: device state `stSent` swept at time
401 (claim score 100 is older than the 300-second floor, deadline 400 has
passed, 1 of 3 attempts used): the command is requeued for retry. -/
theorem recover_candidate_behavior_witness :
    ∃ st', RemoteCommand.recoverDevice "dev1" 401 stSent = .ok st' ∧
      (alookup st'.hashes "c1").map CmdHash.status = some "pending" ∧
      (alookup st'.hashes "c1").map CmdHash.last_error = some "Timeout, retrying" ∧
      st'.pending = "c1" :: stSent.pending ∧
      "c1" ∉ st'.inflight.map Prod.fst :=
  (recover_candidate_behavior "dev1" "c1" 401 stSent sentHash 1 3 (by decide)
    (by decide) (by decide) (by decide)).2.2 (by decide) (by decide)

/-! ### C7 -/

/-- C7: `update_status` to `success` or `failed` stamps `result_ts` with the
current timestamp both on the in-memory command and in the stored hash,
removes the command from its device's inflight set, stores the new status,
and persists `last_error` / `result_payload` when (truthy) values are given.
The theorem quantifies over an arbitrary prior command `c` with no
hypothesis on `c.status`: the store performs the transition whatever the
current status is — transitioning a command that is not currently `sent` is
not rejected. -/
theorem update_status_terminal_effects (c : Cmd) (s e : String) (rp : Option String)
    (now : Int) (st : DeviceState)
    (hterm : s = "success" ∨ s = "failed") (hnow : now ≠ 0) :
    (RemoteCommand.update_status c s e rp now st).1.result_ts = some now ∧
    (alookup (RemoteCommand.update_status c s e rp now st).2.hashes
        c.command_id).map CmdHash.result_ts = some (some now) ∧
    c.command_id ∉
      (RemoteCommand.update_status c s e rp now st).2.inflight.map Prod.fst ∧
    (alookup (RemoteCommand.update_status c s e rp now st).2.hashes
        c.command_id).map CmdHash.status = some s ∧
    (pyTruthyStr e = true →
      (alookup (RemoteCommand.update_status c s e rp now st).2.hashes
          c.command_id).map CmdHash.last_error = some e) ∧
    (pyTruthyDict rp = true →
      (alookup (RemoteCommand.update_status c s e rp now st).2.hashes
          c.command_id).map CmdHash.result_payload_json = some rp) := by
  refine ⟨?_, ?_, ?_, ?_, ?_, ?_⟩
  · unfold RemoteCommand.update_status
    by_cases he : pyTruthyStr e <;>
    by_cases hrp : pyTruthyDict rp <;>
      simp [hterm, he, hrp]
  · exact update_status_hash_result_ts_term c s e rp now st hterm hnow
  · rw [update_status_inflight_proj, if_pos hterm]
    exact not_mem_zrem_keys _ _
  · exact update_status_hash_status c s e rp now st
  · intro he
    rw [update_status_hash_last_error, if_pos he]
  · intro hrp
    rw [update_status_hash_result_payload, if_pos hrp]

/-- Witness for C7 at a concrete input: completing the claimed command of
`stSent` as failed at time 500 with an error message. -/
theorem update_status_terminal_effects_witness :
    (RemoteCommand.update_status (cmdOfHash "dev1" "c1" sentHash) "failed"
        "device error" none 500 stSent).1.result_ts = some 500 ∧
    (alookup (RemoteCommand.update_status (cmdOfHash "dev1" "c1" sentHash) "failed"
        "device error" none 500 stSent).2.hashes
        (cmdOfHash "dev1" "c1" sentHash).command_id).map CmdHash.result_ts =
      some (some 500) ∧
    (cmdOfHash "dev1" "c1" sentHash).command_id ∉
      (RemoteCommand.update_status (cmdOfHash "dev1" "c1" sentHash) "failed"
        "device error" none 500 stSent).2.inflight.map Prod.fst ∧
    (alookup (RemoteCommand.update_status (cmdOfHash "dev1" "c1" sentHash) "failed"
        "device error" none 500 stSent).2.hashes
        (cmdOfHash "dev1" "c1" sentHash).command_id).map CmdHash.status =
      some "failed" ∧
    (pyTruthyStr "device error" = true →
      (alookup (RemoteCommand.update_status (cmdOfHash "dev1" "c1" sentHash) "failed"
          "device error" none 500 stSent).2.hashes
          (cmdOfHash "dev1" "c1" sentHash).command_id).map CmdHash.last_error =
        some "device error") ∧
    (pyTruthyDict none = true →
      (alookup (RemoteCommand.update_status (cmdOfHash "dev1" "c1" sentHash) "failed"
          "device error" none 500 stSent).2.hashes
          (cmdOfHash "dev1" "c1" sentHash).command_id).map CmdHash.result_payload_json =
        some none) :=
  update_status_terminal_effects (cmdOfHash "dev1" "c1" sentHash) "failed"
    "device error" none 500 stSent (Or.inr rfl) (by decide)

/-! ### C10 -/

theorem save_no_deadline {c : Cmd} {genId : String} {now : Int} {st : DeviceState}
    {ts p : Int} (hne : c.command_id ≠ "") (hto : c.timeout_ts = none)
    (hsec : c.timeout_seconds = some ts) (hle : ts ≤ 0) (hp : c.priority = some p) :
    ∃ c' st', RemoteCommand.save c genId now st = .ok (c', st') ∧
      c'.timeout_ts = none ∧ c'.command_id = c.command_id ∧
      alookup st'.hashes c.command_id = some (serializeCmd c') := by
  unfold RemoteCommand.save
  have hlt : decide (0 < ts) = false := decide_eq_false (not_lt.mpr hle)
  have h1 : pyTruthyInt c.timeout_ts = false := by
    rw [hto]
    rfl
  by_cases hiss : pyTruthyInt c.issued_ts = true <;>
  by_cases hstat : c.status = "pending" <;>
  by_cases h0p : 0 < p <;>
  · simp only [if_neg hne, hiss, if_true, if_false, ite_true, ite_false, ite_self,
      Bool.not_eq_true, h1, hto, hsec, hlt, hp, hstat, h0p, Bool.false_eq_true]
    exact ⟨_, _, rfl, by simp [hto], by simp, by simp [alookup_aset_self]⟩

/-- C10: a command whose `timeout_ts` is unset (saved with
`timeout_seconds ≤ 0`, so `save` never assigns a deadline) always reports
`is_expired = false`, yet the recovery sweep's per-command deadline check
never skips it: once it is a candidate (claim score past the 300-second
floor), the loop body transitions it based solely on its attempts count —
failed if `attempts ≥ max_attempts`, requeued otherwise. -/
theorem no_deadline_never_expires_never_skipped :
    (∀ (c : Cmd) (genId : String) (now : Int) (st : DeviceState) (ts p : Int),
      c.command_id ≠ "" → c.timeout_ts = none → c.timeout_seconds = some ts →
      ts ≤ 0 → c.priority = some p →
      ∃ c' st', RemoteCommand.save c genId now st = .ok (c', st') ∧
        c'.timeout_ts = none ∧
        (alookup st'.hashes c.command_id).map CmdHash.timeout_ts = some none) ∧
    (∀ (c : Cmd) (now : Int), c.timeout_ts = none →
      RemoteCommand.is_expired c now = false) ∧
    (∀ (device_id id : String) (now : Int) (st : DeviceState) (h : CmdHash)
        (a m : Int),
      alookup st.hashes id = some h → h.timeout_ts = none →
      h.attempts = some a → h.max_attempts = some m →
      (m ≤ a → ∃ st', RemoteCommand.recoverStep device_id now st id = some st' ∧
        (alookup st'.hashes id).map CmdHash.status = some "failed" ∧
        id ∉ st'.inflight.map Prod.fst) ∧
      (a < m → ∃ st', RemoteCommand.recoverStep device_id now st id = some st' ∧
        (alookup st'.hashes id).map CmdHash.status = some "pending" ∧
        st'.pending = id :: st.pending ∧
        id ∉ st'.inflight.map Prod.fst)) := by
  refine ⟨?_, ?_, ?_⟩
  · intro c genId now st ts p hne hto hsec hle hp
    obtain ⟨c', st', hsave, hto', hcid, hhash⟩ := save_no_deadline hne hto hsec hle hp
    refine ⟨c', st', hsave, hto', ?_⟩
    rw [hhash]
    simp [serializeCmd, hto']
  · intro c now hto
    unfold RemoteCommand.is_expired
    simp [hto, pyTruthyInt]
  · intro device_id id now st h a m halo hto ha hm
    have hskip : (pyTruthyInt h.timeout_ts && decide (now < h.timeout_ts.getD 0)) = false := by
      rw [hto]
      rfl
    constructor
    · intro hge
      have hstep := @recoverStep_fail_eq device_id id now st h a m halo hskip ha hm hge
      refine ⟨_, hstep, ?_, ?_⟩
      · have := update_status_hash_status (cmdOfHash device_id id h) "failed"
          ("Timeout after " ++ toString a ++ " attempts") none now st
        simpa [cmdOfHash] using this
      · exact not_mem_zrem_keys _ _
    · intro hlt
      have hstep := @recoverStep_retry_eq device_id id now st h a m halo hskip ha hm hlt
      refine ⟨_, hstep, ?_, ?_, ?_⟩
      · have := update_status_hash_status (cmdOfHash device_id id h) "pending"
          "Timeout, retrying" none now st
        simpa [cmdOfHash] using this
      · simp [update_status_pending_proj]
      · exact not_mem_zrem_keys _ _

/-- Witness for C10 at concrete inputs: saving a fresh command with
`timeout_seconds = 0` stores no deadline; `is_expired` is false at an
arbitrary late time; and the sweep loop body requeues the inflight
no-deadline command `c2` of `stNoDeadline` (1 of 3 attempts) rather than
skipping it, even at a clock far past any deadline. -/
theorem no_deadline_never_expires_never_skipped_witness :
    (∃ c' st', RemoteCommand.save (Cmd.mk "c9" "dev1" "restart" none "pending"
        (some 0) none none none none (some 0) (some 3) (some 0) none "" none "" "")
        "gen" 100 st0 = .ok (c', st') ∧
      c'.timeout_ts = none ∧
      (alookup st'.hashes "c9").map CmdHash.timeout_ts = some none) ∧
    RemoteCommand.is_expired (cmdOfHash "dev1" "c2" noDeadlineHash) 999999 = false ∧
    (∃ st', RemoteCommand.recoverStep "dev1" 999999 stNoDeadline "c2" = some st' ∧
      (alookup st'.hashes "c2").map CmdHash.status = some "pending" ∧
      st'.pending = "c2" :: stNoDeadline.pending ∧
      "c2" ∉ st'.inflight.map Prod.fst) :=
  ⟨(no_deadline_never_expires_never_skipped.1 _ "gen" 100 st0 0 0 (by decide) rfl rfl
      (by decide) rfl),
   (no_deadline_never_expires_never_skipped.2.1 _ 999999 rfl),
   ((no_deadline_never_expires_never_skipped.2.2 "dev1" "c2" 999999 stNoDeadline
      noDeadlineHash 1 3 (by decide) rfl rfl rfl).2 (by decide))⟩

/-! ### C6 -/

theorem serialize_cmdOfHash (dev id : String) (h : CmdHash) :
    serializeCmd (cmdOfHash dev id h) = h := rfl

/-- C6 counterexample: for the stored pending command `c1` of `stPending`,
`save(get(...))` is not a no-op on the store: it pushes `c1` onto the
pending queue a second time, so an additional queue entry is created. -/
theorem save_get_duplicates_queue_entry :
    RemoteCommand.get "dev1" "c1" stPending = some (cmdOfHash "dev1" "c1" pendingHash) ∧
    (∃ c' st',
      RemoteCommand.save (cmdOfHash "dev1" "c1" pendingHash) "gen" 150 stPending =
        .ok (c', st') ∧
      st'.pending = ["c1", "c1"]) ∧
    stPending.pending = ["c1"] ∧
    (["c1", "c1"] : List String) ≠ stPending.pending :=
  ⟨rfl, ⟨_, _, rfl, rfl⟩, rfl, by decide⟩

/-- C6 (amended): `save(get(device_id, command_id))` of a stored command
leaves every stored field of the command record unchanged — the hash map,
the inflight set, and the in-memory object all come back identical, and the
time index is re-scored with the same `issued_ts` — but `save` enqueues
whenever the status is `pending`, not only when newly pending: a pending
command's id is pushed onto the queue again (front if `priority > 0`, else
back), creating a duplicate entry; only for non-pending commands is the
queue untouched. -/
theorem save_get_roundtrip (dev id genId : String) (now : Int) (st : DeviceState)
    (h : CmdHash) (i ts p : Int)
    (halo : alookup st.hashes id = some h) (hne : id ≠ "")
    (hiss : h.issued_ts = some i) (hinz : i ≠ 0)
    (hsec : h.timeout_seconds = some ts)
    (hts : 0 < ts → pyTruthyInt h.timeout_ts = true)
    (hp : h.priority = some p) :
    RemoteCommand.get dev id st = some (cmdOfHash dev id h) ∧
    RemoteCommand.save (cmdOfHash dev id h) genId now st =
      .ok (cmdOfHash dev id h,
        { st with byTs := zadd st.byTs id i
                  pending := if h.status = "pending" then
                      (if 0 < p then id :: st.pending else st.pending ++ [id])
                    else st.pending }) := by
  refine ⟨get_eq_some halo, ?_⟩
  unfold RemoteCommand.save
  have hne2 : (cmdOfHash dev id h).command_id ≠ "" := hne
  have hiss2 : pyTruthyInt (cmdOfHash dev id h).issued_ts = true := by
    simp [cmdOfHash, hiss, pyTruthyInt, hinz]
  have hsetTs :
      (if pyTruthyInt (cmdOfHash dev id h).timeout_ts = true then some false
       else match (cmdOfHash dev id h).timeout_seconds with
            | none => none
            | some ts => some (decide (0 < ts))) = some false := by
    by_cases htts : pyTruthyInt (cmdOfHash dev id h).timeout_ts = true
    · simp [htts]
    · have hts0 : ¬ (0 < ts) := fun hlt => htts (hts hlt)
      simp only [htts, if_false, ite_false]
      simp [cmdOfHash, hsec, hts0]
  rw [if_neg hne2]
  simp only [hiss2, hsetTs, ite_true, ite_false, if_true, if_false, Bool.false_eq_true]
  have hser : aset st.hashes id h = st.hashes := aset_eq_self halo
  have hcid : (cmdOfHash dev id h).command_id = id := rfl
  have hissc : (cmdOfHash dev id h).issued_ts = some i := hiss
  have hpc : (cmdOfHash dev id h).priority = some p := hp
  have hstatc : (cmdOfHash dev id h).status = h.status := rfl
  simp only [serialize_cmdOfHash, hcid, hissc, hpc, hstatc, hser, Option.getD_some]
  by_cases hstat : h.status = "pending"
  · by_cases h0p : 0 < p <;> simp [hstat, h0p]
  · simp [hstat]

/-- Witness for the amended C6 at a concrete input: round-tripping the
stored pending command of `stPending` leaves hashes and inflight untouched
and appends a duplicate `c1` at the back of the queue. -/
theorem save_get_roundtrip_witness :
    RemoteCommand.get "dev1" "c1" stPending = some (cmdOfHash "dev1" "c1" pendingHash) ∧
    RemoteCommand.save (cmdOfHash "dev1" "c1" pendingHash) "gen" 150 stPending =
      .ok (cmdOfHash "dev1" "c1" pendingHash,
        { stPending with
          byTs := zadd stPending.byTs "c1" 90
          pending := if pendingHash.status = "pending" then
              (if 0 < (0 : Int) then "c1" :: stPending.pending
               else stPending.pending ++ ["c1"])
            else stPending.pending }) :=
  save_get_roundtrip "dev1" "c1" "gen" 150 stPending pendingHash 90 300 0
    (by decide) (by decide) rfl (by decide) rfl (by decide) rfl

/-! ### C5: attempts accounting -/

theorem attemptsZ_ignores_queues (st : DeviceState) (pend : List String)
    (infl byTs : List (String × Int)) (j : String) :
    attemptsZ { st with pending := pend, inflight := infl, byTs := byTs } j =
      attemptsZ st j := rfl

theorem claimLoop_attemptsZ (now : Int) (fuel : Nat) : ∀ (st : DeviceState) (j : String),
    attemptsZ (claimLoop now fuel st).2 j =
      attemptsZ st j + ((claimLoop now fuel st).1.count j) := by
  induction fuel with
  | zero =>
    intro st j
    simp [claimLoop]
  | succ fuel ih =>
    intro st j
    cases h : rpop st.pending with
    | none => simp [claimLoop, h]
    | some pr =>
      obtain ⟨x, rest⟩ := pr
      simp only [claimLoop, h]
      have hstep : ∀ k, attemptsZ
          { st with pending := rest
                    inflight := zadd st.inflight x now
                    hashes := aupdate st.hashes x (claimStepHash now) emptyHash } k =
          attemptsZ st k + (if k = x then 1 else 0) := by
        intro k
        by_cases hk : k = x
        · subst hk
          unfold attemptsZ
          simp only [alookup_aupdate_self]
          cases halo : alookup st.hashes k with
          | none => simp [claimStepHash, emptyHash]
          | some hh =>
            cases hh.attempts <;> simp [claimStepHash, Option.getD]
        · unfold attemptsZ
          simp only [alookup_aupdate_ne _ _ _ _ _ hk, hk, if_false]
          simp
      rw [ih _ j, hstep j]
      by_cases hj : j = x
      · subst hj
        simp [List.count_cons_self]
        omega
      · simp [List.count_cons_of_ne hj, hj]

theorem attemptsZ_set_inflight (st : DeviceState) (z : List (String × Int)) (j : String) :
    attemptsZ { st with inflight := z } j = attemptsZ st j := rfl

theorem attemptsZ_set_pending_inflight (st : DeviceState) (l : List String)
    (z : List (String × Int)) (j : String) :
    attemptsZ { st with pending := l, inflight := z } j = attemptsZ st j := rfl

theorem recoverStep_attemptsZ {device_id id : String} {now : Int} {st st' : DeviceState}
    (h : RemoteCommand.recoverStep device_id now st id = some st') (j : String) :
    attemptsZ st' j = attemptsZ st j := by
  cases halo : alookup st.hashes id with
  | none =>
    have hsk : recoverSkips now st id = true := by
      unfold recoverSkips
      rw [halo]
    rw [recoverStep_of_skips hsk] at h
    cases h
    rfl
  | some hh =>
    by_cases hskip :
        (pyTruthyInt hh.timeout_ts && decide (now < hh.timeout_ts.getD 0)) = true
    · have hsk : recoverSkips now st id = true := by
        unfold recoverSkips
        rw [halo]
        exact hskip
      rw [recoverStep_of_skips hsk] at h
      cases h
      rfl
    · have hskf : (pyTruthyInt hh.timeout_ts && decide (now < hh.timeout_ts.getD 0)) = false := by
        revert hskip
        cases pyTruthyInt hh.timeout_ts && decide (now < hh.timeout_ts.getD 0) <;> simp
      cases hha : hh.attempts with
      | none =>
        rw [recoverStep_raises halo hskf (Or.inl hha)] at h
        cases h
      | some a =>
        cases hhm : hh.max_attempts with
        | none =>
          rw [recoverStep_raises halo hskf (Or.inr hhm)] at h
          cases h
        | some m =>
          by_cases hge : m ≤ a
          · rw [recoverStep_fail_eq halo hskf hha hhm hge] at h
            cases h
            rw [attemptsZ_set_inflight]
            exact update_status_attemptsZ _ _ _ _ _ _ j
          · have hlt : a < m := not_le.mp hge
            rw [recoverStep_retry_eq halo hskf hha hhm hlt] at h
            cases h
            rw [attemptsZ_set_pending_inflight]
            exact update_status_attemptsZ _ _ _ _ _ _ j

theorem recoverGo_attemptsZ (device_id : String) (now : Int) :
    ∀ (ids : List String) (st : DeviceState) (j : String),
      attemptsZ (recoverResultState (RemoteCommand.recoverGo device_id now ids st)) j =
        attemptsZ st j := by
  intro ids
  induction ids with
  | nil =>
    intro st j
    rfl
  | cons x rest ih =>
    intro st j
    simp only [RemoteCommand.recoverGo]
    cases hstep : RemoteCommand.recoverStep device_id now st x with
    | none => rfl
    | some st1 => exact (ih st1 j).trans (recoverStep_attemptsZ hstep j)

theorem execOp_attemptsZ (device_id : String) (st : DeviceState) (op : StoreOp)
    (j : String) :
    attemptsZ (execOp device_id st op).1 j =
      attemptsZ st j + ((execOp device_id st op).2.count j) := by
  cases op with
  | claimOp m now =>
    simp only [execOp, claimLua]
    exact claimLoop_attemptsZ now m.toNat st j
  | reportOp id s e rp now =>
    simp only [execOp]
    cases hget : RemoteCommand.get device_id id st with
    | none => simp
    | some c => simp [update_status_attemptsZ]
  | sweepOp now =>
    simp only [execOp, RemoteCommand.recoverDevice]
    simp [recoverGo_attemptsZ]

theorem execTrace_attemptsZ (device_id : String) :
    ∀ (ops : List StoreOp) (st : DeviceState) (j : String),
      attemptsZ (execTrace device_id ops st).1 j =
        attemptsZ st j + ((execTrace device_id ops st).2.count j) := by
  intro ops
  induction ops with
  | nil =>
    intro st j
    simp [execTrace]
  | cons op rest ih =>
    intro st j
    simp only [execTrace, List.count_append]
    have h1 := execOp_attemptsZ device_id st op j
    have h2 := ih (execOp device_id st op).1 j
    push_cast
    omega

/-! ### C5 -/

/-- C5: over any sequence of claim, result-report and sweep operations, a
command's stored attempts counter ends at its initial value plus the number
of times the command was claimed — so it never decreases, is incremented
exactly once per claim, and equals M after M claims of a command that
started at 0.  And once `attempts ≥ max_attempts`, the sweep's loop body
either leaves an inflight candidate untouched while its own deadline has
not passed (still unclaimable: not pending) or transitions it to `failed`
and out of the inflight set without touching the pending queue — it is
never requeued, so it can never be claimed again. -/
theorem attempts_once_per_claim_and_exhaustion (device_id : String) :
    (∀ (ops : List StoreOp) (st : DeviceState) (id : String),
      attemptsZ (execTrace device_id ops st).1 id =
        attemptsZ st id + ((execTrace device_id ops st).2.count id) ∧
      attemptsZ st id ≤ attemptsZ (execTrace device_id ops st).1 id) ∧
    (∀ (id : String) (now : Int) (st : DeviceState) (h : CmdHash) (a m : Int),
      alookup st.hashes id = some h → h.attempts = some a →
      h.max_attempts = some m → m ≤ a →
      ((pyTruthyInt h.timeout_ts && decide (now < h.timeout_ts.getD 0)) = true →
        RemoteCommand.recoverStep device_id now st id = some st) ∧
      ((pyTruthyInt h.timeout_ts && decide (now < h.timeout_ts.getD 0)) = false →
        ∃ st', RemoteCommand.recoverStep device_id now st id = some st' ∧
          (alookup st'.hashes id).map CmdHash.status = some "failed" ∧
          st'.pending = st.pending ∧
          id ∉ st'.inflight.map Prod.fst)) := by
  constructor
  · intro ops st id
    have h := execTrace_attemptsZ device_id ops st id
    constructor
    · exact h
    · rw [h]
      have : (0 : Int) ≤ ((execTrace device_id ops st).2.count id : Int) := by
        positivity
      omega
  · intro id now st h a m halo ha hm hge
    constructor
    · intro hskip
      refine recoverStep_of_skips ?_
      unfold recoverSkips
      rw [halo]
      exact hskip
    · intro hskip
      have hstep := @recoverStep_fail_eq device_id id now st h a m halo hskip ha hm hge
      refine ⟨_, hstep, ?_, ?_, ?_⟩
      · have := update_status_hash_status (cmdOfHash device_id id h) "failed"
          ("Timeout after " ++ toString a ++ " attempts") none now st
        simpa [cmdOfHash] using this
      · simp [update_status_pending_proj]
      · exact not_mem_zrem_keys _ _

/-- Witness for C5 at concrete inputs: claiming then sweeping the pending
command of `stPending` leaves its counter at `0 + 1`; and the exhausted
inflight command of `stExhausted` (3 of 3 attempts, deadline long past) is
failed by the sweep loop body at time 1000 without being requeued. -/
theorem attempts_once_per_claim_and_exhaustion_witness :
    (attemptsZ (execTrace "dev1" [StoreOp.claimOp 1 110, StoreOp.sweepOp 120]
        stPending).1 "c1" =
      attemptsZ stPending "c1" +
        ((execTrace "dev1" [StoreOp.claimOp 1 110, StoreOp.sweepOp 120]
          stPending).2.count "c1") ∧
     attemptsZ stPending "c1" ≤
      attemptsZ (execTrace "dev1" [StoreOp.claimOp 1 110, StoreOp.sweepOp 120]
        stPending).1 "c1") ∧
    (∃ st', RemoteCommand.recoverStep "dev1" 1000 stExhausted "c3" = some st' ∧
      (alookup st'.hashes "c3").map CmdHash.status = some "failed" ∧
      st'.pending = stExhausted.pending ∧
      "c3" ∉ st'.inflight.map Prod.fst) :=
  ⟨(attempts_once_per_claim_and_exhaustion "dev1").1
      [StoreOp.claimOp 1 110, StoreOp.sweepOp 120] stPending "c1",
   ((attempts_once_per_claim_and_exhaustion "dev1").2 "c3" 1000 stExhausted
      exhaustedHash 3 3 (by decide) rfl rfl (by decide)).2 (by decide)⟩

/-! ### C8: sweep idempotence -/

theorem alookup_isSome_of_mem_keys {α : Type} {l : List (String × α)} {k : String}
    (h : k ∈ l.map Prod.fst) : ∃ v, alookup l k = some v := by
  induction l with
  | nil => simp at h
  | cons e rest ih =>
    obtain ⟨k', v'⟩ := e
    by_cases hk : k' = k
    · exact ⟨v', by simp [alookup, hk]⟩
    · simp only [List.map_cons, List.mem_cons] at h
      rcases h with h | h
      · exact absurd h.symm hk
      · obtain ⟨v, hv⟩ := ih h
        exact ⟨v, by simp [alookup, hk, hv]⟩

theorem recoverSkips_congr {now : Int} {st st' : DeviceState} {id : String}
    (hh : alookup st'.hashes id = alookup st.hashes id) :
    recoverSkips now st' id = recoverSkips now st id := by
  unfold recoverSkips
  rw [hh]

theorem recoverStep_frame {device_id id : String} {now : Int} {st st' : DeviceState}
    (h : RemoteCommand.recoverStep device_id now st id = some st')
    (j : String) (hj : j ≠ id) :
    alookup st'.hashes j = alookup st.hashes j ∧
    zlookup st'.inflight j = zlookup st.inflight j := by
  cases halo : alookup st.hashes id with
  | none =>
    have hsk : recoverSkips now st id = true := by
      unfold recoverSkips
      rw [halo]
    rw [recoverStep_of_skips hsk] at h
    cases h
    exact ⟨rfl, rfl⟩
  | some hh =>
    by_cases hskip :
        (pyTruthyInt hh.timeout_ts && decide (now < hh.timeout_ts.getD 0)) = true
    · have hsk : recoverSkips now st id = true := by
        unfold recoverSkips
        rw [halo]
        exact hskip
      rw [recoverStep_of_skips hsk] at h
      cases h
      exact ⟨rfl, rfl⟩
    · have hskf : (pyTruthyInt hh.timeout_ts &&
          decide (now < hh.timeout_ts.getD 0)) = false := by
        revert hskip
        cases pyTruthyInt hh.timeout_ts && decide (now < hh.timeout_ts.getD 0) <;> simp
      cases hha : hh.attempts with
      | none =>
        rw [recoverStep_raises halo hskf (Or.inl hha)] at h
        cases h
      | some a =>
        cases hhm : hh.max_attempts with
        | none =>
          rw [recoverStep_raises halo hskf (Or.inr hhm)] at h
          cases h
        | some m =>
          by_cases hge : m ≤ a
          · rw [recoverStep_fail_eq halo hskf hha hhm hge] at h
            cases h
            constructor
            · exact update_status_hashes_ne _ _ _ _ _ _ j hj
            · show zlookup (zrem _ id) j = _
              rw [zlookup_zrem_ne hj, update_status_inflight_proj]
              simp only [if_pos (Or.inr rfl)]
              exact zlookup_zrem_ne hj
          · have hlt : a < m := not_le.mp hge
            rw [recoverStep_retry_eq halo hskf hha hhm hlt] at h
            cases h
            constructor
            · exact update_status_hashes_ne _ _ _ _ _ _ j hj
            · show zlookup (zrem _ id) j = _
              rw [zlookup_zrem_ne hj, update_status_inflight_proj]
              simp

theorem recoverStep_mem_inflight {device_id id : String} {now : Int}
    {st st' : DeviceState}
    (h : RemoteCommand.recoverStep device_id now st id = some st')
    (hmem : id ∈ st'.inflight.map Prod.fst) :
    st' = st ∧ recoverSkips now st id = true := by
  cases halo : alookup st.hashes id with
  | none =>
    have hsk : recoverSkips now st id = true := by
      unfold recoverSkips
      rw [halo]
    rw [recoverStep_of_skips hsk] at h
    cases h
    exact ⟨rfl, hsk⟩
  | some hh =>
    by_cases hskip :
        (pyTruthyInt hh.timeout_ts && decide (now < hh.timeout_ts.getD 0)) = true
    · have hsk : recoverSkips now st id = true := by
        unfold recoverSkips
        rw [halo]
        exact hskip
      rw [recoverStep_of_skips hsk] at h
      cases h
      exact ⟨rfl, hsk⟩
    · have hskf : (pyTruthyInt hh.timeout_ts &&
          decide (now < hh.timeout_ts.getD 0)) = false := by
        revert hskip
        cases pyTruthyInt hh.timeout_ts && decide (now < hh.timeout_ts.getD 0) <;> simp
      cases hha : hh.attempts with
      | none =>
        rw [recoverStep_raises halo hskf (Or.inl hha)] at h
        cases h
      | some a =>
        cases hhm : hh.max_attempts with
        | none =>
          rw [recoverStep_raises halo hskf (Or.inr hhm)] at h
          cases h
        | some m =>
          by_cases hge : m ≤ a
          · rw [recoverStep_fail_eq halo hskf hha hhm hge] at h
            cases h
            exact absurd hmem (not_mem_zrem_keys _ _)
          · have hlt : a < m := not_le.mp hge
            rw [recoverStep_retry_eq halo hskf hha hhm hlt] at h
            cases h
            exact absurd hmem (not_mem_zrem_keys _ _)

theorem recoverStep_inflight_nodup {device_id id : String} {now : Int}
    {st st' : DeviceState}
    (h : RemoteCommand.recoverStep device_id now st id = some st')
    (hnd : (st.inflight.map Prod.fst).Nodup) :
    (st'.inflight.map Prod.fst).Nodup := by
  cases halo : alookup st.hashes id with
  | none =>
    have hsk : recoverSkips now st id = true := by
      unfold recoverSkips
      rw [halo]
    rw [recoverStep_of_skips hsk] at h
    cases h
    exact hnd
  | some hh =>
    by_cases hskip :
        (pyTruthyInt hh.timeout_ts && decide (now < hh.timeout_ts.getD 0)) = true
    · have hsk : recoverSkips now st id = true := by
        unfold recoverSkips
        rw [halo]
        exact hskip
      rw [recoverStep_of_skips hsk] at h
      cases h
      exact hnd
    · have hskf : (pyTruthyInt hh.timeout_ts &&
          decide (now < hh.timeout_ts.getD 0)) = false := by
        revert hskip
        cases pyTruthyInt hh.timeout_ts && decide (now < hh.timeout_ts.getD 0) <;> simp
      cases hha : hh.attempts with
      | none =>
        rw [recoverStep_raises halo hskf (Or.inl hha)] at h
        cases h
      | some a =>
        cases hhm : hh.max_attempts with
        | none =>
          rw [recoverStep_raises halo hskf (Or.inr hhm)] at h
          cases h
        | some m =>
          have hus : ((RemoteCommand.update_status (cmdOfHash device_id id hh) "failed"
              ("Timeout after " ++ toString a ++ " attempts")
              none now st).2.inflight.map Prod.fst).Nodup := by
            rw [update_status_inflight_proj]
            simp only [if_pos (Or.inr rfl)]
            exact (zrem_keys_sublist _ _).nodup hnd
          have hus2 : ((RemoteCommand.update_status (cmdOfHash device_id id hh) "pending"
              "Timeout, retrying" none now st).2.inflight.map Prod.fst).Nodup := by
            rw [update_status_inflight_proj]
            simp only [if_neg (by simp : ¬ (("pending" : String) = "success" ∨
              ("pending" : String) = "failed"))]
            exact hnd
          by_cases hge : m ≤ a
          · rw [recoverStep_fail_eq halo hskf hha hhm hge] at h
            cases h
            exact (zrem_keys_sublist _ _).nodup hus
          · have hlt : a < m := not_le.mp hge
            rw [recoverStep_retry_eq halo hskf hha hhm hlt] at h
            cases h
            exact (zrem_keys_sublist _ _).nodup hus2

theorem recoverGo_frame (device_id : String) (now : Int) :
    ∀ (ids : List String) (st st' : DeviceState),
      RemoteCommand.recoverGo device_id now ids st = .ok st' →
      ∀ j, j ∉ ids →
        alookup st'.hashes j = alookup st.hashes j ∧
        zlookup st'.inflight j = zlookup st.inflight j := by
  intro ids
  induction ids with
  | nil =>
    intro st st' h j _
    cases h
    exact ⟨rfl, rfl⟩
  | cons x rest ih =>
    intro st st' h j hj
    simp only [RemoteCommand.recoverGo] at h
    cases hstep : RemoteCommand.recoverStep device_id now st x with
    | none =>
      rw [hstep] at h
      cases h
    | some st1 =>
      rw [hstep] at h
      have hjx : j ≠ x := fun hh => hj (hh ▸ List.mem_cons_self x rest)
      have hjrest : j ∉ rest := fun hh => hj (List.mem_cons_of_mem x hh)
      obtain ⟨h1, h2⟩ := ih st1 st' h j hjrest
      obtain ⟨h3, h4⟩ := recoverStep_frame hstep j hjx
      exact ⟨h1.trans h3, h2.trans h4⟩

theorem recoverGo_inflight_nodup (device_id : String) (now : Int) :
    ∀ (ids : List String) (st st' : DeviceState),
      RemoteCommand.recoverGo device_id now ids st = .ok st' →
      (st.inflight.map Prod.fst).Nodup →
      (st'.inflight.map Prod.fst).Nodup := by
  intro ids
  induction ids with
  | nil =>
    intro st st' h hnd
    cases h
    exact hnd
  | cons x rest ih =>
    intro st st' h hnd
    simp only [RemoteCommand.recoverGo] at h
    cases hstep : RemoteCommand.recoverStep device_id now st x with
    | none =>
      rw [hstep] at h
      cases h
    | some st1 =>
      rw [hstep] at h
      exact ih st1 st' h (recoverStep_inflight_nodup hstep hnd)

theorem recoverGo_spec (device_id : String) (now : Int) :
    ∀ (ids : List String) (st st' : DeviceState),
      RemoteCommand.recoverGo device_id now ids st = .ok st' → ids.Nodup →
      ∀ j, j ∈ st'.inflight.map Prod.fst →
        zlookup st'.inflight j = zlookup st.inflight j ∧
        (j ∈ ids → recoverSkips now st' j = true) := by
  intro ids
  induction ids with
  | nil =>
    intro st st' h _ j _
    cases h
    exact ⟨rfl, by simp⟩
  | cons x rest ih =>
    intro st st' h hnd j hjmem
    simp only [RemoteCommand.recoverGo] at h
    cases hstep : RemoteCommand.recoverStep device_id now st x with
    | none =>
      rw [hstep] at h
      cases h
    | some st1 =>
      rw [hstep] at h
      obtain ⟨hndx, hndrest⟩ := List.nodup_cons.mp hnd
      obtain ⟨ih1, ih2⟩ := ih st1 st' h hndrest j hjmem
      by_cases hjx : j = x
      · subst hjx
        -- j survived the whole run, so it survived its own step: that step skipped
        have hjst1 : j ∈ st1.inflight.map Prod.fst := by
          obtain ⟨v, hv⟩ := alookup_isSome_of_mem_keys hjmem
          have : zlookup st1.inflight j = some v := by rw [← ih1]; exact hv
          rcases List.mem_map.mp (List.mem_map.mpr ⟨(j, v), alookup_mem this, rfl⟩)
            with ⟨p, hp, hfst⟩
          exact List.mem_map.mpr ⟨p, hp, hfst⟩
        obtain ⟨heq, hsk⟩ := recoverStep_mem_inflight hstep hjst1
        subst heq
        constructor
        · exact ih1
        · intro _
          have hhash : alookup st'.hashes j = alookup st1.hashes j :=
            (recoverGo_frame device_id now rest st1 st' h j hndx).1
          rw [recoverSkips_congr hhash]
          exact hsk
      · obtain ⟨_, h4⟩ := recoverStep_frame hstep j hjx
        constructor
        · exact ih1.trans h4
        · intro hjmem2
          rcases List.mem_cons.mp hjmem2 with h5 | h5
          · exact absurd h5 hjx
          · exact ih2 h5

theorem recoverGo_of_all_skips (device_id : String) (now : Int) :
    ∀ (ids : List String) (st : DeviceState),
      (∀ id ∈ ids, recoverSkips now st id = true) →
      RemoteCommand.recoverGo device_id now ids st = .ok st := by
  intro ids
  induction ids with
  | nil =>
    intro st _
    rfl
  | cons x rest ih =>
    intro st hall
    simp only [RemoteCommand.recoverGo]
    rw [recoverStep_of_skips (hall x (List.mem_cons_self x rest))]
    exact ih st (fun id hid => hall id (List.mem_cons_of_mem x hid))

/-- C8: running the recovery sweep twice in immediate succession with no
intervening operations leaves the store unchanged on the second run: every
candidate the first sweep moved or failed is out of the inflight set and no
longer a candidate, and every candidate the first sweep skipped (deadline
still in the future, or hash gone) is skipped again without any write, so
the second sweep returns the same state. -/
theorem recover_sweep_idempotent (device_id : String) (now : Int)
    (st st' : DeviceState) (hnd : (st.inflight.map Prod.fst).Nodup)
    (h : RemoteCommand.recoverDevice device_id now st = .ok st') :
    RemoteCommand.recoverDevice device_id now st' = .ok st' := by
  unfold RemoteCommand.recoverDevice at h ⊢
  apply recoverGo_of_all_skips
  intro id hid
  obtain ⟨s, hmem, h0, hcut⟩ := mem_zrangebyscore.mp hid
  have hkeys : id ∈ st'.inflight.map Prod.fst := List.mem_map.mpr ⟨(id, s), hmem, rfl⟩
  have hnd' : (st'.inflight.map Prod.fst).Nodup :=
    recoverGo_inflight_nodup device_id now _ st st' h hnd
  have hcnd : (zrangebyscore st.inflight 0 (now - 300)).Nodup := zrangebyscore_nodup hnd
  obtain ⟨hzeq, hskips⟩ := recoverGo_spec device_id now _ st st' h hcnd id hkeys
  have hzst' : zlookup st'.inflight id = some s := mem_alookup_of_nodup hnd' hmem
  have hzst : zlookup st.inflight id = some s := by rw [← hzeq]; exact hzst'
  have hidorig : id ∈ zrangebyscore st.inflight 0 (now - 300) :=
    mem_zrangebyscore.mpr ⟨s, alookup_mem hzst, h0, hcut⟩
  exact hskips hidorig

/-- Witness for C8 at a concrete input: sweeping `stSent` at time 401
requeues its command; the immediate second sweep at the same time is a
no-op returning the same state. -/
theorem recover_sweep_idempotent_witness :
    (stSent.inflight.map Prod.fst).Nodup ∧
    ∃ st', RemoteCommand.recoverDevice "dev1" 401 stSent = .ok st' ∧
      RemoteCommand.recoverDevice "dev1" 401 st' = .ok st' := by
  refine ⟨by decide, recoverResultState (RemoteCommand.recoverDevice "dev1" 401 stSent),
    ?_, ?_⟩
  · rfl
  · exact recover_sweep_idempotent "dev1" 401 stSent _ (by decide) rfl

/-! ### C2: queue/inflight invariant -/

theorem mem_keys_iff_zlookup {z : List (String × Int)} {k : String} :
    k ∈ z.map Prod.fst ↔ ∃ s, zlookup z k = some s := by
  constructor
  · exact alookup_isSome_of_mem_keys
  · rintro ⟨s, hs⟩
    exact List.mem_map.mpr ⟨(k, s), alookup_mem hs, rfl⟩

theorem mem_zrem_keys_iff {z : List (String × Int)} {m k : String} :
    k ∈ (zrem z m).map Prod.fst ↔ k ∈ z.map Prod.fst ∧ k ≠ m := by
  constructor
  · intro h
    rcases List.mem_map.mp h with ⟨p, hp, hfst⟩
    obtain ⟨hpz, hpm⟩ := mem_zrem.mp hp
    exact ⟨List.mem_map.mpr ⟨p, hpz, hfst⟩, hfst ▸ hpm⟩
  · rintro ⟨hk, hkm⟩
    rcases List.mem_map.mp hk with ⟨p, hp, hfst⟩
    exact List.mem_map.mpr ⟨p, mem_zrem.mpr ⟨hp, hfst ▸ hkm⟩, hfst⟩

theorem mem_zadd_keys_iff {z : List (String × Int)} {m k : String} {s : Int} :
    k ∈ (zadd z m s).map Prod.fst ↔ k = m ∨ (k ∈ z.map Prod.fst ∧ k ≠ m) := by
  rw [mem_zadd_keys, mem_zrem_keys_iff]

theorem zrem_zrem (z : List (String × Int)) (m : String) :
    zrem (zrem z m) m = zrem z m := by
  unfold zrem
  rw [List.filter_filter]
  simp

theorem rpop_decomp {α : Type} {l : List α} {x : α} {r : List α}
    (h : rpop l = some (x, r)) : l = r ++ [x] := by
  have hrev := rpop_eq_some h
  have := congrArg List.reverse hrev
  simpa using this

theorem save_pending_ok {c : Cmd} {genId : String} {now : Int} {st : DeviceState}
    {p tsec : Int} (hne : c.command_id ≠ "") (hstat : c.status = "pending")
    (hp : c.priority = some p) (hsec : c.timeout_seconds = some tsec) :
    ∃ c', RemoteCommand.save c genId now st = .ok (c',
      { st with hashes := aset st.hashes c.command_id (serializeCmd c')
                byTs := zadd st.byTs c.command_id (c'.issued_ts.getD 0)
                pending := if 0 < p then c.command_id :: st.pending
                           else st.pending ++ [c.command_id] }) ∧
      c'.command_id = c.command_id ∧ c'.status = "pending" := by
  unfold RemoteCommand.save
  by_cases hiss : pyTruthyInt c.issued_ts = true <;>
  by_cases htt : pyTruthyInt c.timeout_ts = true <;>
  by_cases hdec : decide (0 < tsec) = true <;>
  by_cases h0p : 0 < p <;>
  · simp only [if_neg hne, hiss, htt, hdec, hsec, hstat, hp, h0p, ite_true, ite_false,
      if_true, if_false, Bool.not_eq_true, Bool.false_eq_true, decide_eq_true_eq]
    exact ⟨_, rfl, rfl, by simp [hstat]⟩

theorem claim_step_inv {now : Int} {st : DeviceState} {x : String} {rest : List String}
    (hInv : CmdInv st) (hpop : rpop st.pending = some (x, rest)) :
    CmdInv { st with pending := rest
                     inflight := zadd st.inflight x now
                     hashes := aupdate st.hashes x (claimStepHash now) emptyHash } := by
  obtain ⟨hpnd, hind, hhnd, hpend, hinf, hent⟩ := hInv
  have hdecomp : st.pending = rest ++ [x] := rpop_decomp hpop
  have hrnd : rest.Nodup := by
    rw [hdecomp] at hpnd
    exact (List.nodup_append.mp hpnd).1
  have hxrest : x ∉ rest := by
    rw [hdecomp] at hpnd
    intro hx
    exact absurd (List.mem_singleton_self x) ((List.nodup_append.mp hpnd).2.2 hx)
  have hxmem : x ∈ st.pending := by
    rw [hdecomp]
    simp
  have hxhash := hpend x hxmem
  obtain ⟨h0, hh0⟩ : ∃ h0, alookup st.hashes x = some h0 := by
    cases halo : alookup st.hashes x with
    | none =>
      rw [halo] at hxhash
      cases hxhash
    | some h0 => exact ⟨h0, rfl⟩
  have hx_status : h0.status = "pending" := by
    rw [hh0] at hxhash
    simpa using hxhash
  have hx_notin : x ∉ st.inflight.map Prod.fst :=
    ((hent (x, h0) (alookup_mem hh0)).1 hx_status).2
  refine ⟨hrnd, zadd_keys_nodup hind, aupdate_keys_nodup hhnd, ?_, ?_, ?_⟩
  · intro id hid
    have hidp : id ∈ st.pending := by
      rw [hdecomp]
      exact List.mem_append_left _ hid
    have hidx : id ≠ x := fun hh => hxrest (hh ▸ hid)
    show (alookup (aupdate st.hashes x (claimStepHash now) emptyHash) id).map
      CmdHash.status = some "pending"
    rw [alookup_aupdate_ne _ _ _ _ _ hidx]
    exact hpend id hidp
  · intro q hq
    rcases mem_zadd.mp hq with hq1 | ⟨hq2, hq3⟩
    · subst hq1
      show (alookup (aupdate st.hashes x (claimStepHash now) emptyHash) x).map
        CmdHash.status = some "sent"
      rw [alookup_aupdate_self, hh0]
      simp [claimStepHash]
    · show (alookup (aupdate st.hashes x (claimStepHash now) emptyHash) q.1).map
        CmdHash.status = some "sent"
      rw [alookup_aupdate_ne _ _ _ _ _ hq3]
      exact hinf q hq2
  · intro e he
    have halo' : alookup (aupdate st.hashes x (claimStepHash now) emptyHash) e.1 =
        some e.2 := mem_alookup_of_nodup (aupdate_keys_nodup hhnd) he
    by_cases hex : e.1 = x
    · rw [hex, alookup_aupdate_self, hh0] at halo'
      have he2 : e.2 = claimStepHash now h0 := by
        injection halo' with hinj
        exact hinj.symm
      refine ⟨?_, ?_, ?_⟩
      · intro hst
        rw [he2] at hst
        simp [claimStepHash] at hst
      · intro _
        constructor
        · show e.1 ∈ (zadd st.inflight x now).map Prod.fst
          rw [hex]
          exact mem_zadd_keys_iff.mpr (Or.inl rfl)
        · show e.1 ∉ rest
          rw [hex]
          exact hxrest
      · intro _ h2
        rw [he2] at h2
        simp [claimStepHash] at h2
    · rw [alookup_aupdate_ne _ _ _ _ _ hex] at halo'
      have hold := hent (e.1, e.2) (alookup_mem halo')
      refine ⟨?_, ?_, ?_⟩
      · intro hst
        obtain ⟨hp1, hp2⟩ := hold.1 hst
        constructor
        · show e.1 ∈ rest
          rw [hdecomp] at hp1
          rcases List.mem_append.mp hp1 with h | h
          · exact h
          · rw [List.mem_singleton] at h
            exact absurd h hex
        · show e.1 ∉ (zadd st.inflight x now).map Prod.fst
          intro hmem
          rcases mem_zadd_keys_iff.mp hmem with h | ⟨h, _⟩
          · exact hex h
          · exact hp2 h
      · intro hst
        obtain ⟨hp1, hp2⟩ := hold.2.1 hst
        constructor
        · show e.1 ∈ (zadd st.inflight x now).map Prod.fst
          exact mem_zadd_keys_iff.mpr (Or.inr ⟨hp1, hex⟩)
        · show e.1 ∉ rest
          intro hmem
          exact hp2 (by rw [hdecomp]; exact List.mem_append_left _ hmem)
      · intro h1 h2
        obtain ⟨hp1, hp2⟩ := hold.2.2 h1 h2
        constructor
        · show e.1 ∉ rest
          intro hmem
          exact hp1 (by rw [hdecomp]; exact List.mem_append_left _ hmem)
        · show e.1 ∉ (zadd st.inflight x now).map Prod.fst
          intro hmem
          rcases mem_zadd_keys_iff.mp hmem with h | ⟨h, _⟩
          · exact hex h
          · exact hp2 h

theorem claimLoop_inv (now : Int) (fuel : Nat) :
    ∀ st : DeviceState, CmdInv st → CmdInv (claimLoop now fuel st).2 := by
  induction fuel with
  | zero =>
    intro st h
    exact h
  | succ fuel ih =>
    intro st h
    cases hpop : rpop st.pending with
    | none =>
      simp only [claimLoop, hpop]
      exact h
    | some pr =>
      obtain ⟨x, rest⟩ := pr
      simp only [claimLoop, hpop]
      exact ih _ (claim_step_inv h hpop)

theorem update_status_hashes_keys_nodup (c : Cmd) (s e : String) (rp : Option String)
    (now : Int) (st : DeviceState) (hnd : (st.hashes.map Prod.fst).Nodup) :
    ((RemoteCommand.update_status c s e rp now st).2.hashes.map Prod.fst).Nodup := by
  unfold RemoteCommand.update_status
  by_cases hterm : s = "success" ∨ s = "failed" <;>
  · simp only [hterm, if_true, if_false, ite_true, ite_false]
    exact aupdate_keys_nodup hnd

theorem update_status_inv {device_id id : String} {st : DeviceState} {h : CmdHash}
    {s e : String} {rp : Option String} {now : Int}
    (hInv : CmdInv st) (halo : alookup st.hashes id = some h)
    (hsent : h.status = "sent") (hterm : s = "success" ∨ s = "failed") :
    CmdInv (RemoteCommand.update_status (cmdOfHash device_id id h) s e rp now st).2 := by
  obtain ⟨hpnd, hind, hhnd, hpend, hinf, hent⟩ := hInv
  obtain ⟨hidinf, hidnp⟩ := (hent (id, h) (alookup_mem halo)).2.1 hsent
  have hpproj := update_status_pending_proj (cmdOfHash device_id id h) s e rp now st
  have hiproj : (RemoteCommand.update_status (cmdOfHash device_id id h) s e rp
      now st).2.inflight = zrem st.inflight id := by
    rw [update_status_inflight_proj, if_pos hterm]
    rfl
  have hsstat : s ≠ "pending" ∧ s ≠ "sent" := by
    rcases hterm with rfl | rfl <;> exact ⟨by decide, by decide⟩
  refine ⟨?_, ?_, update_status_hashes_keys_nodup _ _ _ _ _ _ hhnd, ?_, ?_, ?_⟩
  · rw [hpproj]
    exact hpnd
  · rw [hiproj]
    exact (zrem_keys_sublist _ _).nodup hind
  · intro id2 hid2
    rw [hpproj] at hid2
    have hne : id2 ≠ id := fun hh => hidnp (hh ▸ hid2)
    rw [update_status_hashes_ne _ _ _ _ _ _ id2 hne]
    exact hpend id2 hid2
  · intro q hq
    rw [hiproj] at hq
    obtain ⟨hq1, hq2⟩ := mem_zrem.mp hq
    rw [update_status_hashes_ne _ _ _ _ _ _ q.1 hq2]
    exact hinf q hq1
  · intro e2 he2
    have halo' : alookup (RemoteCommand.update_status (cmdOfHash device_id id h) s e rp
        now st).2.hashes e2.1 = some e2.2 :=
      mem_alookup_of_nodup (update_status_hashes_keys_nodup _ _ _ _ _ _ hhnd) he2
    by_cases hex : e2.1 = id
    · have hst2 : e2.2.status = s := by
        have hmap := update_status_hash_status (cmdOfHash device_id id h) s e rp now st
        rw [show ((cmdOfHash device_id id h).command_id : String) = id from rfl] at hmap
        rw [hex] at halo'
        rw [halo'] at hmap
        simpa using hmap
      refine ⟨?_, ?_, ?_⟩
      · intro hc
        exact absurd (hst2 ▸ hc) hsstat.1
      · intro hc
        exact absurd (hst2 ▸ hc) hsstat.2
      · intro _ _
        constructor
        · rw [hpproj, hex]
          exact hidnp
        · rw [hiproj, hex]
          exact not_mem_zrem_keys _ _
    · rw [update_status_hashes_ne _ _ _ _ _ _ e2.1 hex] at halo'
      have hold := hent (e2.1, e2.2) (alookup_mem halo')
      refine ⟨?_, ?_, ?_⟩
      · intro hc
        obtain ⟨hp1, hp2⟩ := hold.1 hc
        refine ⟨by rw [hpproj]; exact hp1, ?_⟩
        rw [hiproj]
        intro hmem
        exact hp2 (mem_zrem_keys_iff.mp hmem).1
      · intro hc
        obtain ⟨hp1, hp2⟩ := hold.2.1 hc
        refine ⟨?_, by rw [hpproj]; exact hp2⟩
        rw [hiproj]
        exact mem_zrem_keys_iff.mpr ⟨hp1, hex⟩
      · intro h1 h2
        obtain ⟨hp1, hp2⟩ := hold.2.2 h1 h2
        refine ⟨by rw [hpproj]; exact hp1, ?_⟩
        rw [hiproj]
        intro hmem
        exact hp2 (mem_zrem_keys_iff.mp hmem).1

theorem update_retry_inv {device_id id : String} {st : DeviceState} {h : CmdHash}
    {now : Int} (hInv : CmdInv st) (halo : alookup st.hashes id = some h)
    (hsent : h.status = "sent") :
    CmdInv { (RemoteCommand.update_status (cmdOfHash device_id id h) "pending"
               "Timeout, retrying" none now st).2 with
             pending := id :: (RemoteCommand.update_status (cmdOfHash device_id id h)
               "pending" "Timeout, retrying" none now st).2.pending
             inflight := zrem (RemoteCommand.update_status (cmdOfHash device_id id h)
               "pending" "Timeout, retrying" none now st).2.inflight id } := by
  obtain ⟨hpnd, hind, hhnd, hpend, hinf, hent⟩ := hInv
  obtain ⟨hidinf, hidnp⟩ := (hent (id, h) (alookup_mem halo)).2.1 hsent
  have hpproj := update_status_pending_proj (cmdOfHash device_id id h) "pending"
    "Timeout, retrying" none now st
  have hiproj : (RemoteCommand.update_status (cmdOfHash device_id id h) "pending"
      "Timeout, retrying" none now st).2.inflight = st.inflight := by
    rw [update_status_inflight_proj]
    simp
  refine ⟨?_, ?_, update_status_hashes_keys_nodup _ _ _ _ _ _ hhnd, ?_, ?_, ?_⟩
  · show (id :: _).Nodup
    rw [hpproj]
    exact List.nodup_cons.mpr ⟨hidnp, hpnd⟩
  · show ((zrem _ id).map Prod.fst).Nodup
    rw [hiproj]
    exact (zrem_keys_sublist _ _).nodup hind
  · intro id2 hid2
    rcases List.mem_cons.mp hid2 with rfl | hid2
    · have hmap := update_status_hash_status (cmdOfHash device_id id2 h) "pending"
        "Timeout, retrying" none now st
      exact hmap
    · rw [hpproj] at hid2
      have hne : id2 ≠ id := fun hh => hidnp (hh ▸ hid2)
      show (alookup (RemoteCommand.update_status (cmdOfHash device_id id h) "pending"
        "Timeout, retrying" none now st).2.hashes id2).map CmdHash.status =
        some "pending"
      rw [update_status_hashes_ne _ _ _ _ _ _ id2 hne]
      exact hpend id2 hid2
  · intro q hq
    rw [hiproj] at hq
    obtain ⟨hq1, hq2⟩ := mem_zrem.mp hq
    show (alookup (RemoteCommand.update_status (cmdOfHash device_id id h) "pending"
      "Timeout, retrying" none now st).2.hashes q.1).map CmdHash.status = some "sent"
    rw [update_status_hashes_ne _ _ _ _ _ _ q.1 hq2]
    exact hinf q hq1
  · intro e2 he2
    have halo' : alookup (RemoteCommand.update_status (cmdOfHash device_id id h)
        "pending" "Timeout, retrying" none now st).2.hashes e2.1 = some e2.2 :=
      mem_alookup_of_nodup (update_status_hashes_keys_nodup _ _ _ _ _ _ hhnd) he2
    by_cases hex : e2.1 = id
    · have hst2 : e2.2.status = "pending" := by
        have hmap := update_status_hash_status (cmdOfHash device_id id h) "pending"
          "Timeout, retrying" none now st
        rw [show ((cmdOfHash device_id id h).command_id : String) = id from rfl] at hmap
        rw [hex] at halo'
        rw [halo'] at hmap
        simpa using hmap
      refine ⟨?_, ?_, ?_⟩
      · intro _
        constructor
        · show e2.1 ∈ id :: _
          rw [hex]
          exact List.mem_cons_self _ _
        · show e2.1 ∉ (zrem _ id).map Prod.fst
          rw [hex]
          exact not_mem_zrem_keys _ _
      · intro hc
        rw [hst2] at hc
        exact absurd hc (by decide)
      · intro h1 _
        exact absurd hst2 h1
    · rw [update_status_hashes_ne _ _ _ _ _ _ e2.1 hex] at halo'
      have hold := hent (e2.1, e2.2) (alookup_mem halo')
      refine ⟨?_, ?_, ?_⟩
      · intro hc
        obtain ⟨hp1, hp2⟩ := hold.1 hc
        constructor
        · show e2.1 ∈ id :: _
          rw [hpproj]
          exact List.mem_cons_of_mem _ hp1
        · show e2.1 ∉ (zrem _ id).map Prod.fst
          rw [hiproj]
          intro hmem
          exact hp2 (mem_zrem_keys_iff.mp hmem).1
      · intro hc
        obtain ⟨hp1, hp2⟩ := hold.2.1 hc
        constructor
        · show e2.1 ∈ (zrem _ id).map Prod.fst
          rw [hiproj]
          exact mem_zrem_keys_iff.mpr ⟨hp1, hex⟩
        · show e2.1 ∉ id :: _
          rw [hpproj]
          intro hmem
          rcases List.mem_cons.mp hmem with hh | hh
          · exact hex hh
          · exact hp2 hh
      · intro h1 h2
        obtain ⟨hp1, hp2⟩ := hold.2.2 h1 h2
        constructor
        · show e2.1 ∉ id :: _
          rw [hpproj]
          intro hmem
          rcases List.mem_cons.mp hmem with hh | hh
          · exact hex hh
          · exact hp1 hh
        · show e2.1 ∉ (zrem _ id).map Prod.fst
          rw [hiproj]
          intro hmem
          exact hp2 (mem_zrem_keys_iff.mp hmem).1

theorem recoverStep_inv {device_id id : String} {now : Int} {st st' : DeviceState}
    (hInv : CmdInv st) (hmem : id ∈ st.inflight.map Prod.fst)
    (h : RemoteCommand.recoverStep device_id now st id = some st') :
    CmdInv st' := by
  obtain ⟨q, hq, hqfst⟩ := List.mem_map.mp hmem
  have hsent0 := hInv.2.2.2.2.1 q hq
  rw [hqfst] at hsent0
  obtain ⟨hh, halo, hsent⟩ : ∃ hh, alookup st.hashes id = some hh ∧
      hh.status = "sent" := by
    cases halo : alookup st.hashes id with
    | none =>
      rw [halo] at hsent0
      cases hsent0
    | some hh =>
      rw [halo] at hsent0
      exact ⟨hh, rfl, by simpa using hsent0⟩
  by_cases hskip :
      (pyTruthyInt hh.timeout_ts && decide (now < hh.timeout_ts.getD 0)) = true
  · have hsk : recoverSkips now st id = true := by
      unfold recoverSkips
      rw [halo]
      exact hskip
    rw [recoverStep_of_skips hsk] at h
    cases h
    exact hInv
  · have hskf : (pyTruthyInt hh.timeout_ts &&
        decide (now < hh.timeout_ts.getD 0)) = false := by
      revert hskip
      cases pyTruthyInt hh.timeout_ts && decide (now < hh.timeout_ts.getD 0) <;> simp
    cases hha : hh.attempts with
    | none =>
      rw [recoverStep_raises halo hskf (Or.inl hha)] at h
      cases h
    | some a =>
      cases hhm : hh.max_attempts with
      | none =>
        rw [recoverStep_raises halo hskf (Or.inr hhm)] at h
        cases h
      | some m =>
        by_cases hge : m ≤ a
        · rw [recoverStep_fail_eq halo hskf hha hhm hge] at h
          cases h
          have h1 : CmdInv (RemoteCommand.update_status (cmdOfHash device_id id hh)
              "failed" ("Timeout after " ++ toString a ++ " attempts")
              none now st).2 :=
            update_status_inv hInv halo hsent (Or.inr rfl)
          have hiproj : (RemoteCommand.update_status (cmdOfHash device_id id hh)
              "failed" ("Timeout after " ++ toString a ++ " attempts")
              none now st).2.inflight = zrem st.inflight id := by
            rw [update_status_inflight_proj, if_pos (Or.inr rfl)]
            rfl
          have h2 : zrem (RemoteCommand.update_status (cmdOfHash device_id id hh)
              "failed" ("Timeout after " ++ toString a ++ " attempts")
              none now st).2.inflight id =
              (RemoteCommand.update_status (cmdOfHash device_id id hh)
              "failed" ("Timeout after " ++ toString a ++ " attempts")
              none now st).2.inflight := by
            rw [hiproj]
            exact zrem_zrem _ _
          rw [h2]
          exact h1
        · have hlt : a < m := not_le.mp hge
          rw [recoverStep_retry_eq halo hskf hha hhm hlt] at h
          cases h
          exact update_retry_inv hInv halo hsent

theorem recoverGo_inv (device_id : String) (now : Int) :
    ∀ (ids : List String) (st : DeviceState),
      CmdInv st → (∀ id ∈ ids, id ∈ st.inflight.map Prod.fst) → ids.Nodup →
      CmdInv (recoverResultState (RemoteCommand.recoverGo device_id now ids st)) := by
  intro ids
  induction ids with
  | nil =>
    intro st h _ _
    exact h
  | cons x rest ih =>
    intro st hInv hmem hnd
    obtain ⟨hndx, hndrest⟩ := List.nodup_cons.mp hnd
    simp only [RemoteCommand.recoverGo]
    cases hstep : RemoteCommand.recoverStep device_id now st x with
    | none => exact hInv
    | some st1 =>
      refine ih st1 (recoverStep_inv hInv (hmem x (List.mem_cons_self x rest)) hstep)
        ?_ hndrest
      intro j hj
      have hjx : j ≠ x := fun hh => hndx (hh ▸ hj)
      have hjmem := hmem j (List.mem_cons_of_mem x hj)
      obtain ⟨sj, hsj⟩ := alookup_isSome_of_mem_keys hjmem
      have hfr := (recoverStep_frame hstep j hjx).2
      exact mem_keys_iff_zlookup.mpr ⟨sj, by rw [hfr]; exact hsj⟩

theorem save_fresh_inv_aux {st : DeviceState} {cid : String} {hnew : CmdHash}
    (hInv : CmdInv st) (halo : alookup st.hashes cid = none)
    (hstat : hnew.status = "pending") (pnd' : List String)
    (hmem : ∀ j, j ∈ pnd' ↔ j = cid ∨ j ∈ st.pending)
    (hnd' : pnd'.Nodup) (byTs' : List (String × Int)) :
    CmdInv { st with hashes := aset st.hashes cid hnew
                     byTs := byTs'
                     pending := pnd' } := by
  obtain ⟨hpnd, hind, hhnd, hpend, hinf, hent⟩ := hInv
  have hcidnp : cid ∉ st.pending := by
    intro hc
    have := hpend cid hc
    rw [halo] at this
    cases this
  have hcidni : cid ∉ st.inflight.map Prod.fst := by
    intro hc
    obtain ⟨q, hq, hqfst⟩ := List.mem_map.mp hc
    have := hinf q hq
    rw [hqfst, halo] at this
    cases this
  refine ⟨hnd', hind, aset_keys_nodup hhnd, ?_, ?_, ?_⟩
  · intro j hj
    rcases (hmem j).mp hj with rfl | hj2
    · show (alookup (aset st.hashes j hnew) j).map CmdHash.status = some "pending"
      rw [alookup_aset_self]
      simp [hstat]
    · have hne : j ≠ cid := fun hh => hcidnp (hh ▸ hj2)
      show (alookup (aset st.hashes cid hnew) j).map CmdHash.status = some "pending"
      rw [alookup_aset_ne _ _ _ _ hne]
      exact hpend j hj2
  · intro q hq
    have hne : q.1 ≠ cid := by
      intro hh
      exact hcidni (hh ▸ List.mem_map.mpr ⟨q, hq, rfl⟩)
    show (alookup (aset st.hashes cid hnew) q.1).map CmdHash.status = some "sent"
    rw [alookup_aset_ne _ _ _ _ hne]
    exact hinf q hq
  · intro e he
    have halo' : alookup (aset st.hashes cid hnew) e.1 = some e.2 :=
      mem_alookup_of_nodup (aset_keys_nodup hhnd) he
    by_cases hex : e.1 = cid
    · rw [hex, alookup_aset_self] at halo'
      have he2 : e.2 = hnew := by
        injection halo' with hinj
        exact hinj.symm
      refine ⟨?_, ?_, ?_⟩
      · intro _
        constructor
        · show e.1 ∈ pnd'
          exact (hmem e.1).mpr (Or.inl hex)
        · show e.1 ∉ st.inflight.map Prod.fst
          rw [hex]
          exact hcidni
      · intro hc
        rw [he2, hstat] at hc
        exact absurd hc (by decide)
      · intro h1 _
        exact absurd (he2 ▸ hstat) h1
    · rw [alookup_aset_ne _ _ _ _ hex] at halo'
      have hold := hent (e.1, e.2) (alookup_mem halo')
      refine ⟨?_, ?_, ?_⟩
      · intro hc
        obtain ⟨hp1, hp2⟩ := hold.1 hc
        exact ⟨(hmem e.1).mpr (Or.inr hp1), hp2⟩
      · intro hc
        obtain ⟨hp1, hp2⟩ := hold.2.1 hc
        refine ⟨hp1, ?_⟩
        intro hmem2
        rcases (hmem e.1).mp hmem2 with hh | hh
        · exact hex hh
        · exact hp2 hh
      · intro h1 h2
        obtain ⟨hp1, hp2⟩ := hold.2.2 h1 h2
        refine ⟨?_, hp2⟩
        intro hmem2
        rcases (hmem e.1).mp hmem2 with hh | hh
        · exact hex hh
        · exact hp1 hh

/-- C2 (amended): the queue/inflight consistency invariant — every stored
command is in at most one of the pending queue and the inflight set, with
membership matching its status (`pending` ⇒ queue, `sent` ⇒ inflight,
`success`/`failed` ⇒ neither) — is preserved by the four operations when
they are used as the protocol intends: saving a command that is pending and
not already stored, any claim, `update_status` to `success`/`failed` on a
command stored as `sent`, and any recovery sweep (including one that raises
partway). -/
theorem queue_inflight_invariant_protocol (device_id : String) :
    (∀ (c : Cmd) (genId : String) (now : Int) (st : DeviceState) (p tsec : Int),
      CmdInv st → c.status = "pending" → c.command_id ≠ "" →
      alookup st.hashes c.command_id = none → c.priority = some p →
      c.timeout_seconds = some tsec →
      ∀ c' st', RemoteCommand.save c genId now st = .ok (c', st') → CmdInv st') ∧
    (∀ (m now : Int) (st : DeviceState), CmdInv st → CmdInv (claimLua m now st).2) ∧
    (∀ (id s e : String) (rp : Option String) (now : Int) (st : DeviceState)
        (h : CmdHash),
      CmdInv st → alookup st.hashes id = some h → h.status = "sent" →
      (s = "success" ∨ s = "failed") →
      CmdInv (RemoteCommand.update_status (cmdOfHash device_id id h) s e rp now st).2) ∧
    (∀ (now : Int) (st : DeviceState), CmdInv st →
      CmdInv (recoverResultState (RemoteCommand.recoverDevice device_id now st))) := by
  refine ⟨?_, ?_, ?_, ?_⟩
  · intro c genId now st p tsec hInv hstat hne halo hp hsec c' st' hsave
    obtain ⟨c0, heq, hcid, hstat0⟩ :=
      @save_pending_ok c genId now st p tsec hne hstat hp hsec
    rw [heq] at hsave
    injection hsave with hpair
    injection hpair with hc hst
    subst hst
    have hcidnp : c.command_id ∉ st.pending := by
      intro hmem0
      have hx := hInv.2.2.2.1 c.command_id hmem0
      rw [halo] at hx
      cases hx
    refine save_fresh_inv_aux hInv halo ?_ _ ?_ ?_ _
    · show (serializeCmd c0).status = "pending"
      simp [serializeCmd, hstat0]
    · intro j
      by_cases h0p : 0 < p <;> simp [h0p, List.mem_append, or_comm]
    · by_cases h0p : 0 < p <;>
        simp [h0p, List.nodup_append, List.nodup_cons, hInv.1, hcidnp]
  · intro m now st hInv
    exact claimLoop_inv now m.toNat st hInv
  · intro id s e rp now st h hInv halo hsent hterm
    exact update_status_inv hInv halo hsent hterm
  · intro now st hInv
    unfold RemoteCommand.recoverDevice
    refine recoverGo_inv device_id now _ st hInv ?_ (zrangebyscore_nodup hInv.2.1)
    intro id hid
    exact mem_keys_of_mem_zrangebyscore hid

/-- C2 counterexample: the operations the claim lists do not preserve the
invariant as stated.  Starting from `stPending` (which satisfies it), two
spec-sanctioned operations — a re-save of the stored pending command (save
is documented as an upsert) followed by one claim — leave `c1` a member of
BOTH the pending queue and the inflight set, with status `sent` while still
in the queue. -/
theorem queue_inflight_invariant_violated :
    CmdInv stPending ∧
    (∃ c' st1,
      RemoteCommand.save (cmdOfHash "dev1" "c1" pendingHash) "gen" 150 stPending =
        .ok (c', st1) ∧
      "c1" ∈ (claimLua 1 200 st1).2.pending ∧
      (alookup (claimLua 1 200 st1).2.hashes "c1").map CmdHash.status = some "sent" ∧
      "c1" ∈ (claimLua 1 200 st1).2.inflight.map Prod.fst ∧
      ¬ CmdInv (claimLua 1 200 st1).2) := by
  refine ⟨by decide, _, _, rfl, ?_, ?_, ?_, ?_⟩
  · decide
  · decide
  · decide
  · decide

/-- Witness for the amended C2 at concrete inputs: a fresh pending save into
the empty state, a claim against `stPending`, a success report on the sent
command of `stSent`, and a sweep of `stSent`, each preserving the
invariant. -/
theorem queue_inflight_invariant_protocol_witness :
    (CmdInv st0 ∧
      ∃ c' st', RemoteCommand.save (mkCmd "c1" 0) "gen" 100 st0 = .ok (c', st') ∧
        CmdInv st') ∧
    (CmdInv stPending ∧ CmdInv (claimLua 1 200 stPending).2) ∧
    (CmdInv stSent ∧
      CmdInv (RemoteCommand.update_status (cmdOfHash "dev1" "c1" sentHash) "success"
        "" none 500 stSent).2) ∧
    CmdInv (recoverResultState (RemoteCommand.recoverDevice "dev1" 401 stSent)) :=
  ⟨⟨by decide, _, _, rfl,
      (queue_inflight_invariant_protocol "dev1").1 (mkCmd "c1" 0) "gen" 100 st0 0 300
        (by decide) rfl (by decide) rfl rfl rfl _ _ rfl⟩,
   ⟨by decide,
      (queue_inflight_invariant_protocol "dev1").2.1 1 200 stPending (by decide)⟩,
   ⟨by decide,
      (queue_inflight_invariant_protocol "dev1").2.2.1 "c1" "success" "" none 500
        stSent sentHash (by decide) (by decide) rfl (Or.inl rfl)⟩,
   (queue_inflight_invariant_protocol "dev1").2.2.2 401 stSent (by decide)⟩
